import Mathlib

/-!
# PokeProtocol — formal verification of the specification against the source

This development shallowly embeds the components of the PokeProtocol
implementation that the specification talks about:

* the deterministic Mulberry32 PRNG (`utils/rng.js`),
* the damage calculator (`lib/game/battle_calculator.js`),
* the turn resolver's report comparison (`game/turn-resolver.js`),
* the application router (`game/state-machine.js`),
* the reliability layer (`network/reliability.js`, `protocol/constants.js`),
* the codec (`lib/protocol/serializer.js`, `lib/protocol/messages.js`,
  `protocol/message-creators.js`, `lib/network/udp_socket.js`),
* the host handshake (`network/p2p-server.js`).

JavaScript numbers are modelled exactly: all the 32-bit bitwise operations
of the PRNG coerce their operands with `ToUint32`/`ToInt32`, so the whole
pipeline is faithfully represented over `ℕ` modulo `2^32` (signed and
unsigned representatives agree modulo `2^32`, and every bitwise operator
truncates); fractional arithmetic (`/ 4294967296`, the damage modifiers)
is carried out over `ℚ`, which is exact for every value the code produces
from 32-bit integers and small decimal literals.  Strings are modelled as
`List Char`.
-/

namespace PokeProtocol

/-! ## Mulberry32 PRNG — `utils/rng.js` -/

/-- `2^32 = 4294967296`, the modulus of every JavaScript 32-bit coercion. -/
def U32MOD : ℕ := 2 ^ 32

/-- JavaScript `ToUint32`: reduce modulo `2^32`. -/
def toU32 (n : ℕ) : ℕ := n % U32MOD

/-- JavaScript `x >>> k` (operand coerced to a 32-bit value first). -/
def jsShr (n k : ℕ) : ℕ := (toU32 n) >>> k

/-- JavaScript `x ^ y` on 32-bit coerced operands (result as the unsigned
residue, which agrees with `ToInt32` modulo `2^32`). -/
def jsXor (a b : ℕ) : ℕ := Nat.xor (toU32 a) (toU32 b)

/-- JavaScript `x | y` on 32-bit coerced operands. -/
def jsOr (a b : ℕ) : ℕ := Nat.lor (toU32 a) (toU32 b)

/-- JavaScript `Math.imul`: 32-bit integer multiply with truncation. -/
def jsImul (a b : ℕ) : ℕ := toU32 (toU32 a * toU32 b)

/-- One call of the closure returned by `mulberry32(a)` in `utils/rng.js`:

    let t = a += 0x6D2B79F5;
    t = Math.imul(t ^ t >>> 15, t | 1);
    t ^= t + Math.imul(t ^ t >>> 7, t | 61);
    return ((t ^ t >>> 14) >>> 0) / 4294967296;

The accumulator `a` is returned together with the produced value.  (In JS
the addition `a += …` is unbounded, but every use of `a` passes through a
32-bit coercion, so keeping the accumulator reduced modulo `2^32` is
observationally identical.)  The un-truncated JS addition
`t + Math.imul(…)` feeds into `^`, which coerces modulo `2^32`, so the
unsigned sum used here yields the same residue. -/
def mulberry32Call (a : ℕ) : ℕ × ℚ :=
  let a2 := toU32 (a + 0x6D2B79F5)
  let t1 := jsImul (jsXor a2 (jsShr a2 15)) (jsOr a2 1)
  let t2 := jsXor t1 (t1 + jsImul (jsXor t1 (jsShr t1 7)) (jsOr t1 61))
  let out := jsXor t2 (jsShr t2 14)
  (a2, (out : ℚ) / (U32MOD : ℚ))

/-- `initializeRNG(newSeed)`: the generator is reset to `mulberry32(seed)`,
whose captured accumulator starts at the seed. -/
def initializeRNG (seed : ℕ) : ℕ := toU32 seed

/-- Accumulator state after `k` calls of `nextRandom()` following
`initializeRNG(seed)`. -/
def rngStateAfter (seed : ℕ) : ℕ → ℕ
  | 0 => initializeRNG seed
  | k + 1 => (mulberry32Call (rngStateAfter seed k)).1

/-- The value produced by the `(k+1)`-st call of `nextRandom()` after
`initializeRNG(seed)` (`k` is 0-based). -/
def nextRandomSeq (seed : ℕ) (k : ℕ) : ℚ :=
  (mulberry32Call (rngStateAfter seed k)).2

/-- `generateRandomModifier()` in `utils/rng.js`², as a function of the
`nextRandom()` value it consumes: `(max - min) * nextRandom() + min` with
`min = 0.85`, `max = 1.00`. -/
def generateRandomModifier (r : ℚ) : ℚ := (1 - 17/20) * r + 17/20

/-- Modelled from the spec: the Mulberry32 reference sequence as the claim
words it — the integer state advances by `0x6D2B79F5` each call, so after
`k+1` calls it is `seed + (k+1)·0x6D2B79F5 (mod 2^32)`;
`t = (s ⊕ s>>15) × (s|1)` with 32-bit truncation;
`t = t ⊕ (t + (t ⊕ t>>7) × (t|61))` (the spec demands the algorithm be
"implemented bit-identically … all intermediate multiplications are modulo
2^32", i.e. every word is 32 bits, so the sum is reduced before the XOR);
output `((t ⊕ t>>14) mod 2^32) / 2^32`. -/
def mulberry32RefSeq (seed : ℕ) (k : ℕ) : ℚ :=
  let s := (seed + (k + 1) * 0x6D2B79F5) % 2 ^ 32
  let t1 := ((Nat.xor s (s >>> 15)) * (Nat.lor s 1)) % 2 ^ 32
  let t2 := Nat.xor t1 ((t1 + ((Nat.xor t1 (t1 >>> 7)) * (Nat.lor t1 61)) % 2 ^ 32) % 2 ^ 32)
  (((Nat.xor t2 (t2 >>> 14)) % 2 ^ 32 : ℕ) : ℚ) / (2 ^ 32 : ℚ)

lemma U32MOD_eq : U32MOD = 2 ^ 32 := rfl

lemma toU32_eq (n : ℕ) : toU32 n = n % 2 ^ 32 := rfl

lemma toU32_lt (n : ℕ) : toU32 n < 2 ^ 32 :=
  Nat.mod_lt n (by norm_num [U32MOD])

lemma toU32_of_lt {n : ℕ} (h : n < 2 ^ 32) : toU32 n = n :=
  Nat.mod_eq_of_lt h

lemma xor_lt_u32 {a b : ℕ} (ha : a < 2 ^ 32) (hb : b < 2 ^ 32) :
    Nat.xor a b < 2 ^ 32 := Nat.bitwise_lt ha hb

lemma lor_lt_u32 {a b : ℕ} (ha : a < 2 ^ 32) (hb : b < 2 ^ 32) :
    Nat.lor a b < 2 ^ 32 := Nat.bitwise_lt ha hb

lemma shr_le_self (a k : ℕ) : a >>> k ≤ a := by
  rw [Nat.shiftRight_eq_div_pow]
  exact Nat.div_le_self a (2 ^ k)

lemma shr_lt_u32 {a : ℕ} (ha : a < 2 ^ 32) (k : ℕ) : a >>> k < 2 ^ 32 :=
  lt_of_le_of_lt (shr_le_self a k) ha

/-- The accumulator after `k` calls is `seed + k·0x6D2B79F5` reduced. -/
lemma rngStateAfter_eq (seed k : ℕ) :
    rngStateAfter seed k = (seed + k * 0x6D2B79F5) % 2 ^ 32 := by
  induction k with
  | zero => simp [rngStateAfter, initializeRNG, toU32, U32MOD_eq]
  | succ k ih =>
      simp only [rngStateAfter, mulberry32Call, ih, toU32, U32MOD_eq]
      conv_lhs => rw [Nat.add_comm, Nat.add_mod, Nat.mod_mod_of_dvd _ (dvd_refl _)]
      rw [← Nat.add_mod, Nat.add_comm 0x6D2B79F5, Nat.add_assoc]
      ring_nf

lemma rngStateAfter_lt (seed k : ℕ) : rngStateAfter seed k < 2 ^ 32 := by
  cases k with
  | zero => simpa [rngStateAfter] using toU32_lt seed
  | succ k => simpa [rngStateAfter, mulberry32Call] using toU32_lt _

lemma jsXor_lt (a b : ℕ) : jsXor a b < 2 ^ 32 :=
  xor_lt_u32 (toU32_lt a) (toU32_lt b)

lemma jsXor_of_lt {a b : ℕ} (ha : a < 2 ^ 32) (hb : b < 2 ^ 32) :
    jsXor a b = Nat.xor a b := by
  rw [jsXor, toU32_of_lt ha, toU32_of_lt hb]

lemma jsOr_of_lt {a b : ℕ} (ha : a < 2 ^ 32) (hb : b < 2 ^ 32) :
    jsOr a b = Nat.lor a b := by
  rw [jsOr, toU32_of_lt ha, toU32_of_lt hb]

lemma jsShr_of_lt {a : ℕ} (ha : a < 2 ^ 32) (k : ℕ) : jsShr a k = a >>> k := by
  rw [jsShr, toU32_of_lt ha]

lemma jsImul_of_lt {a b : ℕ} (ha : a < 2 ^ 32) (hb : b < 2 ^ 32) :
    jsImul a b = (a * b) % 2 ^ 32 := by
  rw [jsImul, toU32_of_lt ha, toU32_of_lt hb, toU32_eq]

/-- The code's PRNG output agrees pointwise with the reference output once
the accumulator states agree. -/
lemma mulberry32Call_snd_eq (a : ℕ) :
    (mulberry32Call a).2 =
      (let s := (a + 0x6D2B79F5) % 2 ^ 32
       let t1 := ((Nat.xor s (s >>> 15)) * (Nat.lor s 1)) % 2 ^ 32
       let t2 := Nat.xor t1
         ((t1 + ((Nat.xor t1 (t1 >>> 7)) * (Nat.lor t1 61)) % 2 ^ 32) % 2 ^ 32)
       (((Nat.xor t2 (t2 >>> 14)) % 2 ^ 32 : ℕ) : ℚ) / (2 ^ 32 : ℚ)) := by
  simp only [mulberry32Call]
  set s : ℕ := (a + 0x6D2B79F5) % 2 ^ 32 with hs
  have hslt : s < 2 ^ 32 := Nat.mod_lt _ (by norm_num)
  have ha2 : toU32 (a + 0x6D2B79F5) = s := by rw [toU32_eq]
  rw [ha2]
  set t1 : ℕ := ((Nat.xor s (s >>> 15)) * (Nat.lor s 1)) % 2 ^ 32 with ht1
  have ht1lt : t1 < 2 ^ 32 := Nat.mod_lt _ (by norm_num)
  have hcode1 : jsImul (jsXor s (jsShr s 15)) (jsOr s 1) = t1 := by
    rw [jsShr_of_lt hslt, jsXor_of_lt hslt (shr_lt_u32 hslt 15),
      jsOr_of_lt hslt (by norm_num),
      jsImul_of_lt (xor_lt_u32 hslt (shr_lt_u32 hslt 15))
        (lor_lt_u32 hslt (by norm_num))]
  rw [hcode1]
  set m : ℕ := ((Nat.xor t1 (t1 >>> 7)) * (Nat.lor t1 61)) % 2 ^ 32 with hm
  have hcode2 : jsImul (jsXor t1 (jsShr t1 7)) (jsOr t1 61) = m := by
    rw [jsShr_of_lt ht1lt, jsXor_of_lt ht1lt (shr_lt_u32 ht1lt 7),
      jsOr_of_lt ht1lt (by norm_num),
      jsImul_of_lt (xor_lt_u32 ht1lt (shr_lt_u32 ht1lt 7))
        (lor_lt_u32 ht1lt (by norm_num))]
  rw [hcode2]
  set t2 : ℕ := Nat.xor t1 ((t1 + m) % 2 ^ 32) with ht2
  have ht2lt : t2 < 2 ^ 32 := xor_lt_u32 ht1lt (Nat.mod_lt _ (by norm_num))
  have hcode3 : jsXor t1 (t1 + m) = t2 := by
    rw [jsXor, toU32_of_lt ht1lt, toU32_eq]
  rw [hcode3]
  have hout : jsXor t2 (jsShr t2 14) = (Nat.xor t2 (t2 >>> 14)) % 2 ^ 32 := by
    rw [jsShr_of_lt ht2lt, jsXor_of_lt ht2lt (shr_lt_u32 ht2lt 14),
      Nat.mod_eq_of_lt (xor_lt_u32 ht2lt (shr_lt_u32 ht2lt 14))]
  rw [hout]
  norm_num [U32MOD]

lemma nextRandomSeq_eq_ref (seed k : ℕ) :
    nextRandomSeq seed k = mulberry32RefSeq seed k := by
  rw [nextRandomSeq, mulberry32Call_snd_eq, mulberry32RefSeq]
  have hstate : (rngStateAfter seed k + 0x6D2B79F5) % 2 ^ 32 =
      (seed + (k + 1) * 0x6D2B79F5) % 2 ^ 32 := by
    rw [rngStateAfter_eq, Nat.add_mod, Nat.mod_mod_of_dvd _ (dvd_refl _), ← Nat.add_mod]
    ring_nf
  simp only [hstate]

lemma nextRandomSeq_nonneg (seed k : ℕ) : 0 ≤ nextRandomSeq seed k := by
  unfold nextRandomSeq mulberry32Call
  positivity

lemma nextRandomSeq_lt_one (seed k : ℕ) : nextRandomSeq seed k < 1 := by
  unfold nextRandomSeq mulberry32Call
  rw [div_lt_one (by norm_num [U32MOD])]
  norm_cast
  rw [U32MOD_eq]
  exact jsXor_lt _ _

/-- **C2.** For every seed `s`, the successive values of `nextRandom()`
after `initializeRNG(s)` are exactly the Mulberry32 reference sequence
(state advancing by `0x6D2B79F5` modulo `2^32`, the two tempering rounds
with 32-bit truncation, output `((t ⊕ t>>14) mod 2^32) / 2^32`), and every
`generateRandomModifier()` value equals `0.85 + nextRandom() · 0.15` and
lies in `[0.85, 1.00)`. -/
theorem claim_C2_mulberry32_reference_and_modifier :
    (∀ seed k : ℕ, nextRandomSeq seed k = mulberry32RefSeq seed k) ∧
    (∀ seed k : ℕ,
      generateRandomModifier (nextRandomSeq seed k) =
        85 / 100 + nextRandomSeq seed k * (15 / 100) ∧
      85 / 100 ≤ generateRandomModifier (nextRandomSeq seed k) ∧
      generateRandomModifier (nextRandomSeq seed k) < 1) := by
  refine ⟨nextRandomSeq_eq_ref, fun seed k => ?_⟩
  have h0 : 0 ≤ nextRandomSeq seed k := nextRandomSeq_nonneg seed k
  have h1 : nextRandomSeq seed k < 1 := nextRandomSeq_lt_one seed k
  refine ⟨by rw [generateRandomModifier]; ring, ?_, ?_⟩
  · rw [generateRandomModifier]; nlinarith
  · rw [generateRandomModifier]; nlinarith

/-! ## Damage calculator — `lib/game/battle_calculator.js` (`part_004`)

The calculator works on JavaScript doubles; every quantity it manipulates
(integer base stats, move powers, the literals `1.5`, `0.925` and the
level constants) is an exact decimal, so the computation is modelled over
`ℚ` with `Int.floor` for `Math.floor` and `max` for `Math.max`. -/

/-- `BASE_LEVEL = 50` — Level 50 battle constant. -/
def BASE_LEVEL : ℚ := 50

/-- `STAB_MULTIPLIER = 1.5` — same-type attack bonus. -/
def STAB_MULTIPLIER : ℚ := 3 / 2

/-- `BOOST_FACTOR = 1.5` — multiplier for one use of a special stat boost. -/
def BOOST_FACTOR : ℚ := 3 / 2

/-- The base-stat record consumed by the calculator: numeric stats, the
attacker-side `type` array (e.g. `['grass', 'poison']`) and the
defender-side `type_effectiveness` chart keyed `against_<type>`. -/
structure CalcBaseStats where
  attack : ℚ
  defense : ℚ
  sp_attack : ℚ
  sp_defense : ℚ
  type : List String
  type_effectiveness : List (String × ℚ)
deriving DecidableEq

/-- A Pokémon as the calculator sees it (`state[role].activePokemon`). -/
structure CalcPokemon where
  name : String
  baseStats : CalcBaseStats
deriving DecidableEq

/-- `statBoosts` of a side: remaining special-boost uses. -/
structure CalcStatBoosts where
  sp_attack_uses : ℕ
  sp_defense_uses : ℕ
deriving DecidableEq

/-- A side's team/boost state as passed to `calculateDamage`. -/
structure CalcSideState where
  activePokemon : CalcPokemon
  statBoosts : CalcStatBoosts
deriving DecidableEq

/-- The move data (`power`, `type`, `category`). -/
structure CalcMove where
  name : String
  power : ℚ
  type : String
  category : String
deriving DecidableEq

/-- JavaScript `String.prototype.toLowerCase` on the ASCII strings that
occur as type names: lowercase every character. -/
def jsToLower (s : String) : String := String.mk (s.data.map Char.toLower)

/-- `getTypeEffectiveness(moveType, defenderPokemon)`: look up
`against_<movetype>` in the defender's chart, defaulting to `1.0` when the
key is absent. -/
def getTypeEffectiveness (moveType : String) (defenderPokemon : CalcPokemon) : ℚ :=
  match (defenderPokemon.baseStats.type_effectiveness).lookup
      ("against_" ++ jsToLower moveType) with
  | none => 1
  | some multiplier => multiplier

/-- `calculateDamage(attackerState, defenderState, move)` of
`lib/game/battle_calculator.js`:

1. pick `attack`/`defense`, switching to `sp_attack`/`sp_defense` when
   `move.category === 'Special'` and applying `BOOST_FACTOR` to either
   stat whose boost-use counter is positive;
2. replace a zero defense stat by `1`;
3. `baseDamage = Math.floor(((2·50/5 + 2) · power · att / def) / 50 + 2)`;
4. `modifiers = 1.0`, `·1.5` on STAB, `·` type effectiveness,
   `· 0.925` (the fixed `randomRoll`);
5. `Math.max(1, Math.floor(baseDamage · modifiers))`. -/
def calculateDamage (attackerState defenderState : CalcSideState)
    (move : CalcMove) : ℤ :=
  let attacker := attackerState.activePokemon
  let defender := defenderState.activePokemon
  let isSpecial := move.category = "Special"
  let attackStat : ℚ :=
    if isSpecial then
      (if 0 < attackerState.statBoosts.sp_attack_uses
        then attacker.baseStats.sp_attack * BOOST_FACTOR
        else attacker.baseStats.sp_attack)
    else attacker.baseStats.attack
  let defenseStat0 : ℚ :=
    if isSpecial then
      (if 0 < defenderState.statBoosts.sp_defense_uses
        then defender.baseStats.sp_defense * BOOST_FACTOR
        else defender.baseStats.sp_defense)
    else defender.baseStats.defense
  let defenseStat : ℚ := if defenseStat0 = 0 then 1 else defenseStat0
  let baseDamage : ℤ :=
    ⌊((2 * BASE_LEVEL / 5 + 2) * move.power * attackStat / defenseStat) / 50 + 2⌋
  let modifiers : ℚ := 1
  let modifiers :=
    if jsToLower move.type ∈ attacker.baseStats.type
      then modifiers * STAB_MULTIPLIER else modifiers
  let modifiers := modifiers * getTypeEffectiveness move.type defender
  let modifiers := modifiers * (925 / 1000)
  max 1 ⌊(baseDamage : ℚ) * modifiers⌋

/-- The damage value described by the amended claim: `max(1, ⌊base · m⌋)`
with `base = ⌊((2·50/5 + 2) · power · A / D') / 50 + 2⌋`, `D' = 1` when
`D = 0`, and `m` the product of STAB `1.5`, the defender's type multiplier
(default `1.0`) and the **fixed** roll `0.925`. -/
def amendedDamageFormula (A D power : ℚ) (stab : Bool) (typeMult : ℚ) : ℤ :=
  let Dp : ℚ := if D = 0 then 1 else D
  let base : ℤ := ⌊((2 * 50 / 5 + 2) * power * A / Dp) / 50 + 2⌋
  max 1 ⌊(base : ℚ) * ((if stab then (3 : ℚ) / 2 else 1) * typeMult * (925 / 1000))⌋

/-- A normal-type attacker used by the immunity counterexample. -/
def cxAttacker : CalcSideState :=
  { activePokemon :=
      { name := "Pikachu"
        baseStats :=
          { attack := 50, defense := 40, sp_attack := 50, sp_defense := 50
            type := ["electric"], type_effectiveness := [] } }
    statBoosts := { sp_attack_uses := 0, sp_defense_uses := 0 } }

/-- A ghost-type defender that is immune (`against_normal = 0`) to the
normal-type move of the counterexample. -/
def cxDefender : CalcSideState :=
  { activePokemon :=
      { name := "Gastly"
        baseStats :=
          { attack := 35, defense := 50, sp_attack := 100, sp_defense := 35
            type := ["ghost", "poison"]
            type_effectiveness := [("against_normal", 0)] } }
    statBoosts := { sp_attack_uses := 0, sp_defense_uses := 0 } }

/-- The physical normal-type move of the counterexample. -/
def cxTackle : CalcMove :=
  { name := "Tackle", power := 40, type := "normal", category := "Physical" }

/-- **C1 counterexample.** The claim asserts that the damage is `0`
whenever the defender's type multiplier is `0` (immunity).  On a concrete
immune matchup — Tackle (physical, power 40) thrown by an attacker with
attack 50 at a defender with defense 50 and `against_normal = 0` — the
type multiplier is `0`, yet `calculateDamage` returns
`max(1, ⌊19 · 0⌋) = 1 ≠ 0`. -/
theorem claim_C1_counterexample_immunity_damage_one :
    getTypeEffectiveness cxTackle.type cxDefender.activePokemon = 0 ∧
    calculateDamage cxAttacker cxDefender cxTackle = 1 ∧
    calculateDamage cxAttacker cxDefender cxTackle ≠ 0 := by
  have heff : getTypeEffectiveness cxTackle.type cxDefender.activePokemon = 0 := by
    simp [getTypeEffectiveness, cxTackle, cxDefender, jsToLower, List.lookup]
  have hlow : jsToLower "normal" = "normal" := by decide
  have hkey : ("against_" ++ jsToLower "normal") = "against_normal" := by decide
  have hdmg : calculateDamage cxAttacker cxDefender cxTackle = 1 := by
    simp only [calculateDamage, cxAttacker, cxDefender, cxTackle,
      BASE_LEVEL, STAB_MULTIPLIER, BOOST_FACTOR, hlow, getTypeEffectiveness, hkey]
    simp only [List.lookup,
      show (("against_" ++ "normal" : String) == "against_normal") = true from rfl]
    simp only [show (("normal" : String) = "electric") = False from by simp,
      show (("Physical" : String) = "Special") = False from by simp, if_false]
    norm_num
  exact ⟨heff, hdmg, by rw [hdmg]; norm_num⟩

/-- **C1 (amended).** For every attacker state, defender state and move,
`calculateDamage` of `lib/game/battle_calculator.js` returns
`max(1, ⌊base · modifiers⌋)` with
`base = ⌊((2·50/5 + 2) · power · A / D') / 50 + 2⌋`, where `A` is the
category-selected attack stat (`sp_attack` for `'Special'`, `attack`
otherwise, `×1.5` under a positive special-attack-boost counter), `D'`
substitutes `1` for a zero category-selected defense stat (`sp_defense`
`×1.5` under a positive special-defense-boost counter for `'Special'`,
`defense` otherwise), and `modifiers` is STAB `1.5` (when the lowercased
move type is among the attacker's types) times the defender's type
multiplier (default `1.0`) times the fixed roll `0.925` — not a PRNG
modifier; in particular an immune matchup yields `1`, not `0`, and a
non-`'Special'` category is treated as physical rather than returning
`0`. -/
theorem claim_C1_amended_damage_formula
    (attackerState defenderState : CalcSideState) (move : CalcMove) :
    calculateDamage attackerState defenderState move =
      amendedDamageFormula
        (if move.category = "Special" then
          (if 0 < attackerState.statBoosts.sp_attack_uses
            then attackerState.activePokemon.baseStats.sp_attack * (3 / 2)
            else attackerState.activePokemon.baseStats.sp_attack)
         else attackerState.activePokemon.baseStats.attack)
        (if move.category = "Special" then
          (if 0 < defenderState.statBoosts.sp_defense_uses
            then defenderState.activePokemon.baseStats.sp_defense * (3 / 2)
            else defenderState.activePokemon.baseStats.sp_defense)
         else defenderState.activePokemon.baseStats.defense)
        move.power
        (decide (jsToLower move.type ∈ attackerState.activePokemon.baseStats.type))
        (getTypeEffectiveness move.type defenderState.activePokemon) := by
  unfold calculateDamage amendedDamageFormula BASE_LEVEL STAB_MULTIPLIER BOOST_FACTOR
  by_cases hmem : jsToLower move.type ∈ attackerState.activePokemon.baseStats.type <;>
    simp [hmem, one_mul]

/-! ## Turn resolver — `game/turn-resolver.js` (`part_009`)

`processCalculationReport(message)` compares the opponent's
CALCULATION_REPORT against `activeTurnContext.localResult`.  The inbound
`damage_dealt` / `defender_hp_remaining` fields pass through `Number()`
and are compared with `===`; the reports carry integers, modelled as `ℤ`. -/

/-- The connection states of `game/state-machine.js`. -/
inductive ConnState
  | DISCONNECTED | INIT_SENT | SETUP_EXCHANGING | WAITING_FOR_MOVE
  | PROCESSING_TURN | GAME_OVER | SPECTATING
deriving DecidableEq

/-- One side of the battle state (`state.local` / `state.opponent`):
the fields `processCalculationReport` touches. -/
structure PeerSide where
  pokemonName : String
  currentHP : ℤ
deriving DecidableEq

/-- The battle state held by a peer (`localPeer` models `state.local`). -/
structure BattleState where
  localPeer : PeerSide
  opponent : PeerSide
  turn : ℤ
deriving DecidableEq

/-- `activeTurnContext.localResult`: the locally computed turn result. -/
structure LocalResult where
  attackerName : String
  moveUsed : String
  damageDealt : ℤ
  defenderHpRemaining : ℤ
  remainingHealth : ℤ
deriving DecidableEq

/-- The fields of an inbound CALCULATION_REPORT that the comparison reads
(after `Number()` conversion). -/
structure ReportMsg where
  damage_dealt : ℤ
  defender_hp_remaining : ℤ
deriving DecidableEq

/-- The messages the turn resolver can emit. -/
inductive TurnOutMsg
  | calculationConfirm
  | resolutionRequest (attacker moveUsed : String)
      (damageDealt defenderHpRemaining : ℤ)
  | gameOver (winner loser : String)
deriving DecidableEq

/-- `applyTurnResults(result)`: write `result.defenderHpRemaining` into the
defender's `currentHP`, the defender being `opponent` when the local
Pokémon attacked and `local` otherwise. -/
def applyTurnResults (st : BattleState) (result : LocalResult) : BattleState :=
  if result.attackerName = st.localPeer.pokemonName then
    { st with opponent := { st.opponent with currentHP := result.defenderHpRemaining } }
  else
    { st with localPeer := { st.localPeer with currentHP := result.defenderHpRemaining } }

/-- `checkGameOverAndTransition(result)`: send GAME_OVER (and transition to
GAME_OVER) when the opponent's HP is zero, else advance the turn counter
and transition back to WAITING_FOR_MOVE. -/
def checkGameOverAndTransition (st : BattleState) (_conn : ConnState) :
    BattleState × ConnState × List TurnOutMsg :=
  if st.opponent.currentHP = 0 then
    (st, ConnState.GAME_OVER,
      [TurnOutMsg.gameOver st.localPeer.pokemonName st.opponent.pokemonName])
  else
    ({ st with turn := st.turn + 1 }, ConnState.WAITING_FOR_MOVE, [])

/-- `processCalculationReport(message)` of `game/turn-resolver.js`: with no
pending local result, log an error and return; otherwise compare
`damage_dealt` and `defender_hp_remaining` with the local result by exact
equality.  On match: apply the local result, send CALCULATION_CONFIRM,
then check game over / advance the turn.  On mismatch: send
RESOLUTION_REQUEST carrying the local values and leave the state alone. -/
def processCalculationReport (ctx : Option LocalResult) (st : BattleState)
    (conn : ConnState) (msg : ReportMsg) :
    BattleState × ConnState × List TurnOutMsg :=
  match ctx with
  | none => (st, conn, [])
  | some localResult =>
    let damageMatches := msg.damage_dealt = localResult.damageDealt
    let hpMatches := msg.defender_hp_remaining = localResult.defenderHpRemaining
    if damageMatches ∧ hpMatches then
      let st2 := applyTurnResults st localResult
      let rest := checkGameOverAndTransition st2 conn
      (rest.1, rest.2.1, TurnOutMsg.calculationConfirm :: rest.2.2)
    else
      (st, conn,
        [TurnOutMsg.resolutionRequest localResult.attackerName localResult.moveUsed
          localResult.damageDealt localResult.defenderHpRemaining])

/-- **C3.** While a local result is pending, a received CALCULATION_REPORT
is compared by exact integer equality on `damage_dealt` and
`defender_hp_remaining`; on a double match the local result is applied to
the defender's `currentHP` and CALCULATION_CONFIRM is sent; on any
mismatch RESOLUTION_REQUEST is sent with the local attacker, move,
damage and defender HP, and the battle state is untouched. -/
theorem claim_C3_calculation_report_comparison
    (res : LocalResult) (st : BattleState) (conn : ConnState) (msg : ReportMsg) :
    (msg.damage_dealt = res.damageDealt ∧
        msg.defender_hp_remaining = res.defenderHpRemaining →
      (if res.attackerName = st.localPeer.pokemonName
        then (processCalculationReport (some res) st conn msg).1.opponent.currentHP
        else (processCalculationReport (some res) st conn msg).1.localPeer.currentHP) =
          res.defenderHpRemaining ∧
      TurnOutMsg.calculationConfirm ∈ (processCalculationReport (some res) st conn msg).2.2) ∧
    (¬ (msg.damage_dealt = res.damageDealt ∧
        msg.defender_hp_remaining = res.defenderHpRemaining) →
      processCalculationReport (some res) st conn msg =
        (st, conn,
          [TurnOutMsg.resolutionRequest res.attackerName res.moveUsed
            res.damageDealt res.defenderHpRemaining])) := by
  constructor
  · intro hmatch
    have hif : (msg.damage_dealt = res.damageDealt ∧
        msg.defender_hp_remaining = res.defenderHpRemaining) := hmatch
    constructor
    · by_cases hatk : res.attackerName = st.localPeer.pokemonName <;>
        simp [processCalculationReport, hif, applyTurnResults,
          checkGameOverAndTransition, hatk] <;>
        split <;> simp
    · simp [processCalculationReport, hif, checkGameOverAndTransition]
  · intro hmis
    simp [processCalculationReport, hmis]

/-- **C3 witness.** At a concrete matching report the defender's HP is
overwritten and CALCULATION_CONFIRM is sent; at a concrete mismatching
report the exact RESOLUTION_REQUEST is emitted with the state unchanged. -/
theorem claim_C3_calculation_report_comparison_witness :
    ((if "Pikachu" = "Pikachu"
      then (processCalculationReport
        (some ⟨"Pikachu", "Thunderbolt", 17, 28, 35⟩)
        ⟨⟨"Pikachu", 35⟩, ⟨"Bulbasaur", 45⟩, 1⟩ ConnState.PROCESSING_TURN
          ⟨17, 28⟩).1.opponent.currentHP
      else (processCalculationReport
        (some ⟨"Pikachu", "Thunderbolt", 17, 28, 35⟩)
        ⟨⟨"Pikachu", 35⟩, ⟨"Bulbasaur", 45⟩, 1⟩ ConnState.PROCESSING_TURN
          ⟨17, 28⟩).1.localPeer.currentHP) = 28 ∧
      TurnOutMsg.calculationConfirm ∈ (processCalculationReport
        (some ⟨"Pikachu", "Thunderbolt", 17, 28, 35⟩)
        ⟨⟨"Pikachu", 35⟩, ⟨"Bulbasaur", 45⟩, 1⟩ ConnState.PROCESSING_TURN
          ⟨17, 28⟩).2.2) ∧
    (processCalculationReport
        (some ⟨"Pikachu", "Thunderbolt", 17, 28, 35⟩)
        ⟨⟨"Pikachu", 35⟩, ⟨"Bulbasaur", 45⟩, 1⟩ ConnState.PROCESSING_TURN
          ⟨18, 27⟩ =
      (⟨⟨"Pikachu", 35⟩, ⟨"Bulbasaur", 45⟩, 1⟩, ConnState.PROCESSING_TURN,
        [TurnOutMsg.resolutionRequest "Pikachu" "Thunderbolt" 17 28])) := by
  refine ⟨claim_C3_calculation_report_comparison
      ⟨"Pikachu", "Thunderbolt", 17, 28, 35⟩
      ⟨⟨"Pikachu", 35⟩, ⟨"Bulbasaur", 45⟩, 1⟩ ConnState.PROCESSING_TURN
      ⟨17, 28⟩ |>.1 (by exact ⟨rfl, rfl⟩),
    claim_C3_calculation_report_comparison
      ⟨"Pikachu", "Thunderbolt", 17, 28, 35⟩
      ⟨⟨"Pikachu", 35⟩, ⟨"Bulbasaur", 45⟩, 1⟩ ConnState.PROCESSING_TURN
      ⟨18, 27⟩ |>.2 (by decide)⟩

/-! ## Application router — `game/state-machine.js`, `routeApplicationPacket`

The router first short-circuits CHAT_MESSAGE, then switches on
`message_type`.  Its switch has cases for HANDSHAKE_RESPONSE,
BATTLE_SETUP, ATTACK_ANNOUNCE, DEFENSE_ANNOUNCE, CALCULATION_REPORT and
GAME_OVER — and **no** case for RESOLUTION_REQUEST (or
CALCULATION_CONFIRM), which therefore fall to the `default:` branch,
whose body is a single `Logger.warn` call. -/

/-- The `message_type` tags of `protocol/constants.js`. -/
inductive MsgType
  | HANDSHAKE_REQUEST | HANDSHAKE_RESPONSE | SPECTATOR_REQUEST | BATTLE_SETUP
  | ATTACK_ANNOUNCE | DEFENSE_ANNOUNCE | CALCULATION_REPORT | CALCULATION_CONFIRM
  | RESOLUTION_REQUEST | GAME_OVER | CHAT_MESSAGE | ACK | DISCONNECT
deriving DecidableEq

/-- An inbound application message with the payload fields the modelled
router branches read. -/
structure AppMessage where
  message_type : MsgType
  attacker : String
  move_used : String
  damage_dealt : ℤ
  defender_hp_remaining : ℤ
  winner : String
deriving DecidableEq

/-- The state the application router owns: connection state, the pending
turn context and the battle state. -/
structure RouterState where
  conn : ConnState
  ctx : Option LocalResult
  battle : BattleState
deriving DecidableEq

/-- The outcome of one router invocation.  The four connection-setup /
turn-announce cases delegate to handlers whose effects (PRNG, setup data,
their own sends) live outside this state slice; they are marked
`delegated` and modelled in their own sections.  Every branch whose
effect is confined to `RouterState` is `completed` with its sends. -/
inductive RouterOutcome
  | delegated (handler : MsgType)
  | completed (state : RouterState) (sends : List TurnOutMsg)
deriving DecidableEq

/-- `handleCalculationReport(message)`: ignore the report with a warning
outside PROCESSING_TURN, else run `processCalculationReport`. -/
def handleCalculationReport (s : RouterState) (m : AppMessage) :
    RouterState × List TurnOutMsg :=
  if s.conn = ConnState.PROCESSING_TURN then
    let r := processCalculationReport s.ctx s.battle s.conn
      ⟨m.damage_dealt, m.defender_hp_remaining⟩
    ({ s with battle := r.1, conn := r.2.1 }, r.2.2)
  else (s, [])

/-- `routeApplicationPacket(message)` of `game/state-machine.js`:
CHAT_MESSAGE returns immediately; the switch dispatches the six handled
types; everything else — RESOLUTION_REQUEST included — hits `default:`,
which only logs `Received unhandled message type` and changes nothing. -/
def routeApplicationPacket (s : RouterState) (m : AppMessage) : RouterOutcome :=
  if m.message_type = MsgType.CHAT_MESSAGE then RouterOutcome.completed s []
  else
    match m.message_type with
    | MsgType.HANDSHAKE_RESPONSE => RouterOutcome.delegated MsgType.HANDSHAKE_RESPONSE
    | MsgType.BATTLE_SETUP => RouterOutcome.delegated MsgType.BATTLE_SETUP
    | MsgType.ATTACK_ANNOUNCE => RouterOutcome.delegated MsgType.ATTACK_ANNOUNCE
    | MsgType.DEFENSE_ANNOUNCE => RouterOutcome.delegated MsgType.DEFENSE_ANNOUNCE
    | MsgType.CALCULATION_REPORT =>
        let r := handleCalculationReport s m
        RouterOutcome.completed r.1 r.2
    | MsgType.GAME_OVER =>
        RouterOutcome.completed { s with conn := ConnState.GAME_OVER } []
    | _ => RouterOutcome.completed s []

/-- A concrete router state used by the C4 counterexample: a peer in
PROCESSING_TURN whose opponent stands at 100 HP. -/
def cxRouterState : RouterState :=
  { conn := ConnState.PROCESSING_TURN
    ctx := some ⟨"Pikachu", "Thunderbolt", 25, 75, 35⟩
    battle := ⟨⟨"Pikachu", 35⟩, ⟨"Snorlax", 100⟩, 3⟩ }

/-- A concrete inbound RESOLUTION_REQUEST proposing
`damage_dealt = 26`, `defender_hp_remaining = 74`. -/
def cxResolutionRequest : AppMessage :=
  { message_type := MsgType.RESOLUTION_REQUEST
    attacker := "Pikachu", move_used := "Thunderbolt"
    damage_dealt := 26, defender_hp_remaining := 74
    winner := "" }

/-- **C4 counterexample.** The claim says a peer receiving
RESOLUTION_REQUEST adopts the carried values (overwriting the defender's
`currentHP` with 74) and replies CALCULATION_CONFIRM.  On the concrete
request the router returns `completed` with the state unchanged — the
opponent's HP is still 100, not the proposed 74 — and an empty send list,
so no CALCULATION_CONFIRM is emitted. -/
theorem claim_C4_counterexample_resolution_request_dropped :
    routeApplicationPacket cxRouterState cxResolutionRequest =
      RouterOutcome.completed cxRouterState [] ∧
    cxRouterState.battle.opponent.currentHP = 100 ∧
    cxResolutionRequest.defender_hp_remaining = 74 ∧ (100 : ℤ) ≠ 74 := by
  refine ⟨rfl, rfl, rfl, by decide⟩

/-- **C4 (amended).** Every inbound RESOLUTION_REQUEST delivered to
`routeApplicationPacket` falls to the switch's `default:` branch: the
router leaves the state untouched and sends nothing — in particular it
neither adopts the carried values nor replies CALCULATION_CONFIRM. -/
theorem claim_C4_amended_resolution_request_unhandled
    (s : RouterState) (m : AppMessage)
    (h : m.message_type = MsgType.RESOLUTION_REQUEST) :
    routeApplicationPacket s m = RouterOutcome.completed s [] := by
  simp [routeApplicationPacket, h]

/-- **C4 witness.** The amended theorem applied to the concrete state and
request of the counterexample. -/
theorem claim_C4_amended_resolution_request_unhandled_witness :
    routeApplicationPacket cxRouterState cxResolutionRequest =
      RouterOutcome.completed cxRouterState [] :=
  claim_C4_amended_resolution_request_unhandled cxRouterState cxResolutionRequest rfl

/-! ## Reliability layer — `network/reliability.js` (`part_006`) and
`protocol/constants.js` (`part_013`)

The retransmission buffer is a JavaScript `Map` from sequence number to
`{ message, ip, port, retries, timer }`, modelled as an association list
with `Map` semantics (`get`/`set`/`delete`).  Timer state is reduced to
whether a timer is scheduled; firing a scheduled timer runs the
`retransmit` closure for its sequence number. -/

/-- `RELIABILITY_CONFIG.TIMEOUT_MS = 500`. -/
def TIMEOUT_MS : ℕ := 500

/-- `RELIABILITY_CONFIG.MAX_RETRIES = 3`. -/
def MAX_RETRIES : ℕ := 3

/-- One retransmission-buffer entry
(`{ message, ip, port, retries, timer }`). -/
structure RelEntry (M : Type) where
  message : M
  ip : String
  port : ℕ
  retries : ℕ
  timerSet : Bool
deriving DecidableEq

/-- `retransmissionBuffer.get(k)`. -/
def bufGet {M : Type} (buf : List (ℕ × RelEntry M)) (k : ℕ) : Option (RelEntry M) :=
  buf.lookup k

/-- `retransmissionBuffer.has(k)`. -/
def bufHas {M : Type} (buf : List (ℕ × RelEntry M)) (k : ℕ) : Bool :=
  (bufGet buf k).isSome

/-- `retransmissionBuffer.set(k, e)` — JS `Map.set`: update in place when
the key exists, append otherwise. -/
def bufSet {M : Type} : List (ℕ × RelEntry M) → ℕ → RelEntry M → List (ℕ × RelEntry M)
  | [], k, e => [(k, e)]
  | (k', e') :: rest, k, e =>
      if k' = k then (k, e) :: rest else (k', e') :: bufSet rest k e

/-- `retransmissionBuffer.delete(k)`. -/
def bufDelete {M : Type} (buf : List (ℕ × RelEntry M)) (k : ℕ) :
    List (ℕ × RelEntry M) :=
  buf.filter (fun p => p.1 ≠ k)

/-- An observable event of the reliability layer: a raw transmission via
`sendRawPacketExternal`, the fatal `MAX_RETRIES` failure for a sequence
number, or nothing. -/
inductive RelEvent (M : Type)
  | transmitted (message : M) (ip : String) (port : ℕ)
  | fatalFailure (seq : ℕ)
  | noop
deriving DecidableEq

/-- `sendReliable(message, ip, port)` of `network/reliability.js`: when the
sequence number is already buffered, warn and return (nothing
transmitted, buffer untouched); otherwise transmit once immediately and
buffer `{ message, ip, port, retries: 0, timer }`.  `seqNum` is the
`sequence_number` field read from the message. -/
def sendReliable {M : Type} (buf : List (ℕ × RelEntry M)) (message : M)
    (seqNum : ℕ) (ip : String) (port : ℕ) :
    List (ℕ × RelEntry M) × List (RelEvent M) :=
  if bufHas buf seqNum then (buf, [])
  else
    (bufSet buf seqNum ⟨message, ip, port, 0, true⟩,
      [RelEvent.transmitted message ip port])

/-- The `retransmit` closure run when the timer for `seqNum` fires: absent
entry → nothing (already acknowledged); `retries ≥ MAX_RETRIES` → log the
fatal failure and delete **only this entry**; otherwise retransmit the
stored message, increment `retries` and reschedule the timer. -/
def retransmitFire {M : Type} (buf : List (ℕ × RelEntry M)) (seqNum : ℕ) :
    List (ℕ × RelEntry M) × RelEvent M :=
  match bufGet buf seqNum with
  | none => (buf, RelEvent.noop)
  | some entry =>
      if MAX_RETRIES ≤ entry.retries then
        (bufDelete buf seqNum, RelEvent.fatalFailure seqNum)
      else
        (bufSet buf seqNum
          { entry with retries := entry.retries + 1, timerSet := true },
          RelEvent.transmitted entry.message entry.ip entry.port)

/-- `handleAck(ackNum)`: cancel the timer and clear the entry when
present; a no-op otherwise. -/
def handleAck {M : Type} (buf : List (ℕ × RelEntry M)) (ackNum : ℕ) :
    List (ℕ × RelEntry M) × Bool :=
  if bufHas buf ackNum then (bufDelete buf ackNum, true) else (buf, false)

/-- Buffer contents before the `k`-th timer fire for `seqNum` (0-based),
in a run where no ACK ever arrives, starting from `buf0`. -/
def fireTrace {M : Type} (buf0 : List (ℕ × RelEntry M)) (seqNum : ℕ) :
    ℕ → List (ℕ × RelEntry M)
  | 0 => buf0
  | k + 1 => (retransmitFire (fireTrace buf0 seqNum k) seqNum).1

/-- The event of the `k`-th timer fire in that run. -/
def fireEvent {M : Type} (buf0 : List (ℕ × RelEntry M)) (seqNum k : ℕ) :
    RelEvent M :=
  (retransmitFire (fireTrace buf0 seqNum k) seqNum).2

/-- Wall-clock offset of the `k`-th fire after the first transmission: the
initial timer is scheduled `TIMEOUT_MS` ahead and each retransmission
reschedules it `TIMEOUT_MS` ahead again. -/
def fireTime (k : ℕ) : ℕ := (k + 1) * TIMEOUT_MS

lemma fireTrace_upto {M : Type} (message : M) (ip : String) (port : ℕ) (seqNum : ℕ) :
    ∀ k, k ≤ MAX_RETRIES →
      fireTrace [(seqNum, ⟨message, ip, port, 0, true⟩)] seqNum k =
        [(seqNum, ⟨message, ip, port, k, true⟩)] := by
  intro k hk
  induction k with
  | zero => rfl
  | succ k ih =>
      have hk' : k ≤ MAX_RETRIES := Nat.le_of_succ_le hk
      have hlt : ¬ (MAX_RETRIES ≤ k) := by
        have := Nat.lt_of_succ_le hk
        omega
      simp [fireTrace, ih hk', retransmitFire, bufGet, List.lookup, bufSet, hlt]

/-- **C5.** In a run where sequence `N` is sent via `sendReliable` from an
empty buffer and never acknowledged: the send transmits the bytes once;
each of the first `MAX_RETRIES = 3` timer fires retransmits exactly the
same message to the same destination; the fire at which
`retries ≥ MAX_RETRIES` — the `(MAX_RETRIES+1)`-st, at
`(MAX_RETRIES+1)·TIMEOUT_MS = 2000 ms` after the first send — declares
the fatal failure for `N`; every later fire is a no-op, so `N` is never
retransmitted again; and a fire on an already-acknowledged (absent) entry
does nothing. -/
theorem claim_C5_retransmission_schedule {M : Type} (message : M)
    (ip : String) (port : ℕ) (seqNum : ℕ) :
    (sendReliable ([] : List (ℕ × RelEntry M)) message seqNum ip port).2 =
        [RelEvent.transmitted message ip port] ∧
    (∀ k, k < MAX_RETRIES →
      fireEvent (sendReliable ([] : List (ℕ × RelEntry M)) message seqNum ip port).1
          seqNum k =
        RelEvent.transmitted message ip port) ∧
    fireEvent (sendReliable ([] : List (ℕ × RelEntry M)) message seqNum ip port).1
        seqNum MAX_RETRIES =
      RelEvent.fatalFailure seqNum ∧
    fireTime MAX_RETRIES = (MAX_RETRIES + 1) * TIMEOUT_MS ∧
    (∀ k, MAX_RETRIES < k →
      fireEvent (sendReliable ([] : List (ℕ × RelEntry M)) message seqNum ip port).1
          seqNum k =
        RelEvent.noop) ∧
    retransmitFire ([] : List (ℕ × RelEntry M)) seqNum = ([], RelEvent.noop) := by
  have hbuf0 : (sendReliable ([] : List (ℕ × RelEntry M)) message seqNum ip port).1 =
      [(seqNum, ⟨message, ip, port, 0, true⟩)] := by
    simp [sendReliable, bufHas, bufGet, List.lookup, bufSet]
  have htrace := fireTrace_upto message ip port seqNum
  have hfatalbuf :
      fireTrace [(seqNum, ⟨message, ip, port, 0, true⟩)] seqNum 4 = [] := by
    show (retransmitFire
      (fireTrace [(seqNum, ⟨message, ip, port, 0, true⟩)] seqNum 3) seqNum).1 = []
    rw [htrace 3 le_rfl]
    simp [retransmitFire, bufGet, List.lookup, bufDelete, MAX_RETRIES, List.filter]
  have hafter : ∀ j,
      fireTrace [(seqNum, ⟨message, ip, port, 0, true⟩)] seqNum (4 + j) = [] := by
    intro j
    induction j with
    | zero => exact hfatalbuf
    | succ j ih =>
        have h4 : 4 + (j + 1) = (4 + j) + 1 := by omega
        rw [h4]
        show (retransmitFire
          (fireTrace [(seqNum, ⟨message, ip, port, 0, true⟩)] seqNum (4 + j)) seqNum).1 = []
        rw [ih]
        simp [retransmitFire, bufGet, List.lookup]
  refine ⟨by simp [sendReliable, bufHas, bufGet, List.lookup], ?_, ?_, rfl, ?_, ?_⟩
  · intro k hk
    rw [hbuf0]
    have hle : k ≤ MAX_RETRIES := Nat.le_of_lt hk
    have hnot : ¬ (MAX_RETRIES ≤ k) := by omega
    rw [fireEvent, htrace k hle]
    simp [retransmitFire, bufGet, List.lookup, hnot]
  · rw [hbuf0, fireEvent, htrace MAX_RETRIES le_rfl]
    simp [retransmitFire, bufGet, List.lookup]
  · intro k hk
    rw [hbuf0]
    obtain ⟨j, rfl⟩ : ∃ j, k = 4 + j := by
      refine ⟨k - 4, ?_⟩
      have : MAX_RETRIES = 3 := rfl
      omega
    rw [fireEvent, hafter j]
    simp [retransmitFire, bufGet, List.lookup]
  · simp [retransmitFire, bufGet, List.lookup]

/-- **C5 witness.** The schedule theorem applied at a concrete message:
the second fire (`k = 1 < 3`) retransmits the same bytes. -/
theorem claim_C5_retransmission_schedule_witness :
    fireEvent (sendReliable ([] : List (ℕ × RelEntry String)) "BATTLE_SETUP" 2
        "127.0.0.1" 8001).1 2 1 =
      RelEvent.transmitted "BATTLE_SETUP" "127.0.0.1" 8001 :=
  (claim_C5_retransmission_schedule "BATTLE_SETUP" "127.0.0.1" 8001 2).2.1 1
    (by norm_num [MAX_RETRIES])

/-- An exhausted buffer entry (`retries = MAX_RETRIES`) for sequence 1. -/
def cxEntryExhausted : RelEntry String :=
  ⟨"HANDSHAKE_REQUEST bytes", "127.0.0.1", 8001, 3, true⟩

/-- A fresh buffer entry for sequence 2, still awaiting its ACK. -/
def cxEntryFresh : RelEntry String :=
  ⟨"BATTLE_SETUP bytes", "127.0.0.1", 8001, 0, true⟩

/-- A two-entry retransmission buffer in which sequence 1 has exhausted
its retries while sequence 2 is still pending. -/
def cxBufTwo : List (ℕ × RelEntry String) :=
  [(1, cxEntryExhausted), (2, cxEntryFresh)]

/-- **C6 (code bug).** The spec demands that exhausting `MAX_RETRIES` tear
the whole session down: buffer emptied, every timer cancelled, terminal
closed state, no further outbound packets.  The code's `retransmit`
closure deletes **only** the exhausted entry and returns — the very
comment at that point says a failure event "should be sent to the Game
State Machine here", but none is.  On the concrete two-entry buffer, the
fatal fire for sequence 1 leaves sequence 2 buffered with its timer
scheduled, and the next fire for sequence 2 still transmits a packet. -/
theorem claim_C6_fatal_failure_no_session_teardown :
    retransmitFire cxBufTwo 1 = ([(2, cxEntryFresh)], RelEvent.fatalFailure 1) ∧
    (retransmitFire cxBufTwo 1).1 ≠ [] ∧
    (bufGet (retransmitFire cxBufTwo 1).1 2).map RelEntry.timerSet = some true ∧
    (retransmitFire (retransmitFire cxBufTwo 1).1 2).2 =
      RelEvent.transmitted "BATTLE_SETUP bytes" "127.0.0.1" 8001 := by
  refine ⟨?_, ?_, ?_, ?_⟩ <;> decide

lemma bufHas_false_not_mem {M : Type} (buf : List (ℕ × RelEntry M)) (k : ℕ)
    (h : bufHas buf k = false) : k ∉ buf.map Prod.fst := by
  induction buf with
  | nil => simp
  | cons hd tl ih =>
      simp only [bufHas, bufGet, List.lookup, Option.isSome] at h
      by_cases hk : k = hd.1
      · rw [show (k == hd.1) = true from beq_iff_eq.mpr hk] at h
        simp at h
      · rw [show (k == hd.1) = false from beq_eq_false_iff_ne.mpr hk] at h
        simp only [List.map_cons, List.mem_cons]
        push_neg
        exact ⟨hk, ih h⟩

lemma bufSet_keys_of_not_has {M : Type} (buf : List (ℕ × RelEntry M)) (k : ℕ)
    (e : RelEntry M) (h : bufHas buf k = false) :
    (bufSet buf k e).map Prod.fst = buf.map Prod.fst ++ [k] := by
  induction buf with
  | nil => simp [bufSet]
  | cons hd tl ih =>
      simp only [bufHas, bufGet, List.lookup, Option.isSome] at h
      by_cases hk : k = hd.1
      · rw [show (k == hd.1) = true from beq_iff_eq.mpr hk] at h
        simp at h
      · rw [show (k == hd.1) = false from beq_eq_false_iff_ne.mpr hk] at h
        have hne : ¬ (hd.1 = k) := fun he => hk he.symm
        simp [bufSet, hne, ih h]

/-- **C10.** Calling `sendReliable` with a sequence number that is already
a key of the retransmission buffer transmits nothing and leaves the
buffer — including the existing entry — untouched; moreover every
`sendReliable` call (duplicate or not) preserves key-uniqueness of the
buffer, so each sequence number maps to at most one entry at all times. -/
theorem claim_C10_duplicate_sequence_send_is_noop {M : Type}
    (buf : List (ℕ × RelEntry M)) (message : M) (seqNum : ℕ)
    (ip : String) (port : ℕ) (hdup : bufHas buf seqNum = true) :
    sendReliable buf message seqNum ip port = (buf, []) ∧
    (∀ (buf' : List (ℕ × RelEntry M)) (message' : M) (seqNum' : ℕ)
        (ip' : String) (port' : ℕ),
      (buf'.map Prod.fst).Nodup →
      ((sendReliable buf' message' seqNum' ip' port').1.map Prod.fst).Nodup) := by
  constructor
  · simp [sendReliable, hdup]
  · intro buf' message' seqNum' ip' port' hnodup
    by_cases h : bufHas buf' seqNum' = true
    · simp [sendReliable, h, hnodup]
    · have hfalse : bufHas buf' seqNum' = false := by
        revert h
        cases bufHas buf' seqNum' <;> simp
      rw [sendReliable]
      simp only [hfalse, Bool.false_eq_true, if_false,
        bufSet_keys_of_not_has buf' seqNum' _ hfalse]
      simp [List.nodup_append, hnodup, bufHas_false_not_mem buf' seqNum' hfalse]

/-- **C10 witness.** Re-sending sequence 2 on a buffer that already holds
an entry for 2 changes nothing and transmits nothing. -/
theorem claim_C10_duplicate_sequence_send_is_noop_witness :
    sendReliable [(2, cxEntryFresh)] "BATTLE_SETUP bytes" 2 "127.0.0.1" 8001 =
      ([(2, cxEntryFresh)], []) ∧
    (∀ (buf' : List (ℕ × RelEntry String)) (message' : String) (seqNum' : ℕ)
        (ip' : String) (port' : ℕ),
      (buf'.map Prod.fst).Nodup →
      ((sendReliable buf' message' seqNum' ip' port').1.map Prod.fst).Nodup) :=
  claim_C10_duplicate_sequence_send_is_noop [(2, cxEntryFresh)] "BATTLE_SETUP bytes" 2
    "127.0.0.1" 8001 (by decide)

/-! ## Codec — `lib/protocol/serializer.js` (header-first variant),
`lib/protocol/messages.js`, `protocol/message-creators.js` and
`lib/network/udp_socket.js` (`part_005`)

JavaScript strings are modelled as `List Char`.  The `encode`/`decode`
pair of `lib/protocol/serializer.js` works line by line (`<key>: <value>`,
joined by `\n`, the whole frame trimmed); nested objects/arrays travel as
single-line JSON.  JS numbers on the wire are the integers the protocol
actually carries; `Number(value)` is modelled on the decimal-integer
fragment (`jsNumberInt`), and the syntactic guard `jsNumericStart` is a
superset of every trimmed string JavaScript's `Number` can turn into a
non-`NaN` value, so hypotheses phrased with it transfer to the real
semantics. -/

/-- JavaScript strings, modelled as their character lists. -/
abbrev Chars := List Char

/-- The whitespace characters `String.prototype.trim` strips (the ASCII
ones that occur in this protocol's frames). -/
def wsChar (c : Char) : Bool :=
  c = ' ' || c = '\t' || c = '\n' || c = '\r'

/-- Strip leading whitespace. -/
def trimLeft (s : Chars) : Chars := s.dropWhile wsChar

/-- Strip trailing whitespace. -/
def trimRight (s : Chars) : Chars := (s.reverse.dropWhile wsChar).reverse

/-- JavaScript `value.trim()`. -/
def trimChars (s : Chars) : Chars := trimRight (trimLeft s)

/-- JavaScript `rawData.split('\n')` (keeps empty segments; never returns
an empty list). -/
def splitOnNl : Chars → List Chars
  | [] => [[]]
  | c :: rest =>
      let r := splitOnNl rest
      if c = '\n' then [] :: r
      else
        match r with
        | l :: ls => (c :: l) :: ls
        | [] => [[c]]

lemma splitOnNl_ne_nil (s : Chars) : splitOnNl s ≠ [] := by
  induction s with
  | nil => simp [splitOnNl]
  | cons c rest ih =>
      simp only [splitOnNl]
      split
      · simp
      · cases h : splitOnNl rest with
        | nil => simp
        | cons l ls => simp [h]

lemma splitOnNl_append (l s : Chars) (hl : '\n' ∉ l) :
    splitOnNl (l ++ s) =
      match splitOnNl s with
      | r :: rs => (l ++ r) :: rs
      | [] => [l] := by
  induction l with
  | nil =>
      cases h : splitOnNl s with
      | nil => exact absurd h (splitOnNl_ne_nil s)
      | cons r rs => simp [h]
  | cons c cl ih =>
      have hc : ¬ (c = '\n') := fun hcc => hl (by simp [hcc])
      have hcl : '\n' ∉ cl := fun hm => hl (by simp [hm])
      cases h : splitOnNl s with
      | nil => exact absurd h (splitOnNl_ne_nil s)
      | cons r rs =>
          have ihh := ih hcl
          rw [h] at ihh
          simp only at ihh
          simp only [List.cons_append, splitOnNl, hc, if_false]
          rw [show cl.append s = cl ++ s from rfl, ihh]

lemma trimLeft_cons_of_not_ws {c : Char} (s : Chars) (hc : wsChar c = false) :
    trimLeft (c :: s) = c :: s := by
  simp [trimLeft, List.dropWhile, hc]

lemma trimRight_append_ws {c : Char} (s : Chars) (hc : wsChar c = true) :
    trimRight (s ++ [c]) = trimRight s := by
  simp [trimRight, List.dropWhile, hc]

lemma trimRight_append_of_not_ws {c : Char} (s : Chars) (hc : wsChar c = false) :
    trimRight (s ++ [c]) = s ++ [c] := by
  simp [trimRight, List.dropWhile, hc]

/-- A string is `trimSafe` when it is nonempty and neither starts nor
ends with whitespace — exactly the strings `trim` leaves alone. -/
def trimSafe (s : Chars) : Bool :=
  match s with
  | [] => false
  | c :: _ =>
      !wsChar c &&
        (match s.getLast? with
         | some d => !wsChar d
         | none => false)

lemma trimSafe_spec {s : Chars} (h : trimSafe s = true) :
    trimChars s = s ∧ s ≠ [] := by
  obtain ⟨c, rest, rfl⟩ : ∃ c rest, s = c :: rest := by
    cases s with
    | nil => simp [trimSafe] at h
    | cons c rest => exact ⟨c, rest, rfl⟩
  simp only [trimSafe, Bool.and_eq_true, Bool.not_eq_true'] at h
  obtain ⟨hhead, htail⟩ := h
  obtain ⟨d, hd⟩ : ∃ d, (c :: rest).getLast? = some d := by
    cases hg : (c :: rest).getLast? with
    | none => simp [hg] at htail
    | some d => exact ⟨d, rfl⟩
  rw [hd] at htail
  simp only at htail
  have hdws : wsChar d = false := by simpa using htail
  have hsne : (c :: rest) ≠ [] := by simp
  have hdecomp : (c :: rest).dropLast ++ [(c :: rest).getLast hsne] = c :: rest :=
    List.dropLast_append_getLast hsne
  have hdval : (c :: rest).getLast hsne = d := by
    have := List.getLast?_eq_getLast (c :: rest) hsne
    rw [hd] at this
    exact (Option.some_injective _ this).symm
  refine ⟨?_, by simp⟩
  rw [trimChars, trimLeft_cons_of_not_ws rest hhead]
  conv_lhs => rw [← hdecomp, hdval]
  rw [trimRight_append_of_not_ws _ hdws, ← hdval, hdecomp]

/-- Scalar JSON leaves (the protocol's nested payloads — `stat_boosts`,
`team_preview`, stat tables — carry integer and string leaves). -/
inductive JScalar
  | num (n : ℤ)
  | str (s : Chars)
deriving DecidableEq

/-- A JSON container as serialized onto one line by `JSON.stringify`: an
array or an object of scalar leaves, the shapes the protocol's messages
nest. -/
inductive Jsn
  | arr (elems : List JScalar)
  | obj (fields : List (Chars × JScalar))
deriving DecidableEq

/-- JavaScript `String(n)` for an integer. -/
def intToChars (n : ℤ) : Chars :=
  if n < 0 then '-' :: Nat.toDigits 10 n.natAbs else Nat.toDigits 10 n.toNat

/-- One hexadecimal digit, lowercase, as emitted by `JSON.stringify`'s
`\uXXXX` escapes. -/
def hexDigit (n : ℕ) : Char :=
  if n < 10 then Char.ofNat (48 + n) else Char.ofNat (87 + n)

/-- `JSON.stringify`'s escaping of one character inside a string literal. -/
def escapeChar (c : Char) : Chars :=
  if c = '"' then ['\\', '"']
  else if c = '\\' then ['\\', '\\']
  else if c = '\n' then ['\\', 'n']
  else if c = '\r' then ['\\', 'r']
  else if c = '\t' then ['\\', 't']
  else if c.toNat = 8 then ['\\', 'b']
  else if c.toNat = 12 then ['\\', 'f']
  else if c.toNat < 32 then
    ['\\', 'u', hexDigit (c.toNat / 4096 % 16), hexDigit (c.toNat / 256 % 16),
      hexDigit (c.toNat / 16 % 16), hexDigit (c.toNat % 16)]
  else [c]

/-- A JSON string literal with quotes and escapes. -/
def quoteStr (s : Chars) : Chars := '"' :: (s.map escapeChar).flatten ++ ['"']

/-- `JSON.stringify` of a scalar. -/
def stringifyScalar : JScalar → Chars
  | JScalar.num n => intToChars n
  | JScalar.str s => quoteStr s

/-- Comma-joined array elements. -/
def stringifyArrElems : List JScalar → Chars
  | [] => []
  | [e] => stringifyScalar e
  | e :: e2 :: rest => stringifyScalar e ++ ',' :: stringifyArrElems (e2 :: rest)

/-- Comma-joined `"key":value` object members. -/
def stringifyObjFields : List (Chars × JScalar) → Chars
  | [] => []
  | [(k, v)] => quoteStr k ++ ':' :: stringifyScalar v
  | (k, v) :: p :: rest =>
      quoteStr k ++ ':' :: stringifyScalar v ++ ',' :: stringifyObjFields (p :: rest)

/-- `JSON.stringify` of a container (no whitespace, as JS emits it). -/
def stringifyJsn : Jsn → Chars
  | Jsn.arr es => '[' :: stringifyArrElems es ++ [']']
  | Jsn.obj fs => '{' :: stringifyObjFields fs ++ ['}']

/-- Decimal digit value of a character. -/
def digitVal (c : Char) : Option ℕ :=
  if '0' ≤ c ∧ c ≤ '9' then some (c.toNat - 48) else none

/-- Parse a maximal digit run (at least one digit required). -/
def parseNatAux : Chars → ℕ → ℕ × Chars
  | [], acc => (acc, [])
  | c :: rest, acc =>
      match digitVal c with
      | some d => parseNatAux rest (acc * 10 + d)
      | none => (acc, c :: rest)

/-- Parse a nonempty digit run. -/
def parseNat : Chars → Option (ℕ × Chars)
  | [] => none
  | c :: rest =>
      match digitVal c with
      | some d => some (parseNatAux rest d)
      | none => none

/-- Hexadecimal digit value of a character. -/
def hexVal (c : Char) : Option ℕ :=
  if '0' ≤ c ∧ c ≤ '9' then some (c.toNat - 48)
  else if 'a' ≤ c ∧ c ≤ 'f' then some (c.toNat - 87)
  else if 'A' ≤ c ∧ c ≤ 'F' then some (c.toNat - 55)
  else none

/-- Parse the body of a JSON string literal (after the opening quote) up
to its closing quote, undoing `JSON.stringify`'s escapes. -/
def parseJsonString : Chars → Option (Chars × Chars)
  | [] => none
  | '"' :: rest => some ([], rest)
  | '\\' :: 'u' :: a :: b :: c :: d :: rest =>
      match hexVal a, hexVal b, hexVal c, hexVal d with
      | some ha, some hb, some hc, some hd =>
          (parseJsonString rest).map
            (fun p => (Char.ofNat (ha * 4096 + hb * 256 + hc * 16 + hd) :: p.1, p.2))
      | _, _, _, _ => none
  | '\\' :: e :: rest =>
      let esc : Option Char :=
        if e = '"' then some '"'
        else if e = '\\' then some '\\'
        else if e = '/' then some '/'
        else if e = 'n' then some '\n'
        else if e = 'r' then some '\r'
        else if e = 't' then some '\t'
        else if e = 'b' then some (Char.ofNat 8)
        else if e = 'f' then some (Char.ofNat 12)
        else none
      match esc with
      | some c => (parseJsonString rest).map (fun p => (c :: p.1, p.2))
      | none => none
  | c :: rest => (parseJsonString rest).map (fun p => (c :: p.1, p.2))

/-- Parse one scalar JSON value (string or integer number). -/
def parseJsonScalar : Chars → Option (JScalar × Chars)
  | '"' :: rest => (parseJsonString rest).map (fun p => (JScalar.str p.1, p.2))
  | '-' :: rest => (parseNat rest).map (fun p => (JScalar.num (-(p.1 : ℤ)), p.2))
  | s => (parseNat s).map (fun p => (JScalar.num (p.1 : ℤ), p.2))

/-- Parse `]`-terminated array elements (fuel bounds the comma loop). -/
def parseArrElems : ℕ → Chars → Option (List JScalar × Chars)
  | 0, _ => none
  | _ + 1, s =>
      match parseJsonScalar s with
      | none => none
      | some (e, rest) =>
          match rest with
          | ']' :: r => some ([e], r)
          | ',' :: r => (parseArrElems ‹ℕ› r).map (fun p => (e :: p.1, p.2))
          | _ => none

/-- Parse `}`-terminated `"key":value` object members. -/
def parseObjFields : ℕ → Chars → Option (List (Chars × JScalar) × Chars)
  | 0, _ => none
  | _ + 1, s =>
      match s with
      | '"' :: rest =>
          match parseJsonString rest with
          | none => none
          | some (k, rest2) =>
              match rest2 with
              | ':' :: rest3 =>
                  match parseJsonScalar rest3 with
                  | none => none
                  | some (v, rest4) =>
                      match rest4 with
                      | '}' :: r => some ([(k, v)], r)
                      | ',' :: r => (parseObjFields ‹ℕ› r).map (fun p => ((k, v) :: p.1, p.2))
                      | _ => none
              | _ => none
      | _ => none

/-- `JSON.parse` on the canonical single-line fragment `JSON.stringify`
emits for the protocol's flat containers; anything else fails (and JS's
`catch` then treats the value as a string). -/
def jsonParse (s : Chars) : Option Jsn :=
  match s with
  | '[' :: ']' :: rest => if rest = [] then some (Jsn.arr []) else none
  | '[' :: rest =>
      match parseArrElems s.length rest with
      | some (es, []) => some (Jsn.arr es)
      | _ => none
  | '{' :: '}' :: rest => if rest = [] then some (Jsn.obj []) else none
  | '{' :: rest =>
      match parseObjFields s.length rest with
      | some (fs, []) => some (Jsn.obj fs)
      | _ => none
  | _ => none

/-- A JavaScript message-field value: a number (the protocol carries
integers), a string, or a nested object/array. -/
inductive JVal
  | num (n : ℤ)
  | str (s : Chars)
  | jsn (j : Jsn)
deriving DecidableEq

/-- The `key: value` text of a field value — `String(value)` for scalars,
`JSON.stringify(value)` for objects and arrays. -/
def encVal : JVal → Chars
  | JVal.num n => intToChars n
  | JVal.str s => s
  | JVal.jsn j => stringifyJsn j

/-- JavaScript truthiness of a field value (`if (message[seqKey])`). -/
def jsTruthy : JVal → Bool
  | JVal.num n => n ≠ 0
  | JVal.str s => s ≠ []
  | JVal.jsn _ => true

/-- JavaScript `String(scalar)`: a number prints its digits, a string
passes through. -/
def jsStringScalar : JScalar → Chars
  | JScalar.num n => intToChars n
  | JScalar.str s => s

/-- JavaScript `String(value)` on the protocol's value fragment — the
conversion the template literal `${message[sequenceNumberKey]}` applies
to the `sequence_number` header line: numbers print their digits, strings
pass through, an array joins its `String`-converted elements with `,`
(`Array.prototype.toString`), and a plain object prints
`[object Object]`. -/
def jsStringOf : JVal → Chars
  | JVal.num n => intToChars n
  | JVal.str s => s
  | JVal.jsn (Jsn.arr es) => List.intercalate [','] (es.map jsStringScalar)
  | JVal.jsn (Jsn.obj _) => "[object Object]".data

/-- A message object: its mandatory `message_type` plus the remaining
properties in insertion order. -/
structure WireMsg where
  message_type : Chars
  fields : List (Chars × JVal)
deriving DecidableEq

/-- The characters of the key `message_type`. -/
def mtKey : Chars := "message_type".data

/-- The characters of the key `sequence_number`
(`RELIABILITY_FIELDS.SEQUENCE_NUMBER`). -/
def seqKey : Chars := "sequence_number".data

/-- The characters of the key `ack_number`
(`RELIABILITY_FIELDS.ACK_NUMBER`). -/
def ackKey : Chars := "ack_number".data

/-- The lines `encode` of `lib/protocol/serializer.js` accumulates:
`message_type` first, then `sequence_number` when truthy — written with
the template literal, i.e. `String(value)` — then the remaining
properties in order, each as `key: value` with `JSON.stringify` for
objects and `String` otherwise (`encVal`). -/
def encodeLines (m : WireMsg) : List Chars :=
  (mtKey ++ ':' :: ' ' :: m.message_type) ::
    ((match m.fields.lookup seqKey with
      | some v => if jsTruthy v then [seqKey ++ ':' :: ' ' :: jsStringOf v] else []
      | none => []) ++
      (m.fields.filter (fun kv => kv.1 ≠ mtKey ∧ kv.1 ≠ seqKey)).map
        (fun kv => kv.1 ++ ':' :: ' ' :: encVal kv.2))

/-- The accumulated frame before the final `trim`: every line is written
with a trailing `\n`. -/
def encodeRaw (lines : List Chars) : Chars := (lines.map (· ++ ['\n'])).flatten

/-- `encode(message)`: accumulate the lines and `trim` the result. -/
def encode (m : WireMsg) : Chars := trimChars (encodeRaw (encodeLines m))

/-- JS object property assignment `message[key] = value`: overwrite in
place when the key exists, append otherwise. -/
def jsObjSet : List (Chars × JVal) → Chars → JVal → List (Chars × JVal)
  | [], k, v => [(k, v)]
  | (k', v') :: rest, k, v =>
      if k' = k then (k, v) :: rest else (k', v') :: jsObjSet rest k v

/-- `Number(value)` on the decimal-integer fragment the protocol uses:
a full digit run is that natural number; anything else is `NaN` (`none`).
The empty string and signs are handled in `jsNumberInt`. -/
def jsAllDigitsInt (t : Chars) : Option ℤ :=
  match parseNat t with
  | some (n, []) => some (n : ℤ)
  | _ => none

/-- See `jsNumberInt`: sign handling of `Number`. -/
def jsNumberInt (s : Chars) : Option ℤ :=
  match s with
  | [] => some 0
  | c :: rest =>
      if c = '-' then (jsAllDigitsInt rest).map Int.neg
      else if c = '+' then jsAllDigitsInt rest
      else jsAllDigitsInt (c :: rest)

/-- Conservative syntactic guard: every *trimmed* string JavaScript's
`Number` evaluates to a non-`NaN` value is empty or starts with a sign,
a dot, a digit, or the `I` of `Infinity`.  A string with
`jsNumericStart = false` therefore takes the string branch of `decode`
under both this model and real JS. -/
def jsNumericStart (s : Chars) : Bool :=
  match s with
  | [] => true
  | c :: _ => c = '+' || c = '-' || c = '.' || c = 'I' || ('0' ≤ c && c ≤ '9')

/-- Does the value text open with `{` or `[`
(`value.startsWith('{') || value.startsWith('[')`)? -/
def headBracket (s : Chars) : Bool :=
  match s with
  | '{' :: _ => true
  | '[' :: _ => true
  | _ => false

/-- The value-interpretation step of `decode`: JSON for values opening
with `{`/`[` (string on parse failure, mirroring the `catch`), then the
numeric branch for every key but `message_type`, then string. -/
def decodeValue (key value : Chars) : JVal :=
  if headBracket value then
    match jsonParse value with
    | some j => JVal.jsn j
    | none => JVal.str value
  else if key ≠ mtKey then
    match jsNumberInt value with
    | some n => JVal.num n
    | none => JVal.str value
  else JVal.str value

/-- One line of `decode`: find the first `:`; a line without one is
skipped; both sides are trimmed. -/
def decodeLine (line : Chars) : Option (Chars × JVal) :=
  match line.span (fun c => c ≠ ':') with
  | (_, []) => none
  | (before, _ :: after) =>
      let key := trimChars before
      let value := trimChars after
      some (key, decodeValue key value)

/-- The body of `decode`'s per-line loop: a line without a `:` is
skipped, otherwise the pair is assigned into the object. -/
def decodeStep (acc : List (Chars × JVal)) (line : Chars) : List (Chars × JVal) :=
  match decodeLine line with
  | none => acc
  | some (k, v) => jsObjSet acc k v

/-- `decode(rawData)` of `lib/protocol/serializer.js`: trim, split on
`\n`, accumulate `key`/`value` pairs into the object, and fail unless a
`message_type` property came out. -/
def decode (raw : Chars) : Option (List (Chars × JVal)) :=
  let lines := splitOnNl (trimChars raw)
  let obj := lines.foldl decodeStep []
  if (obj.lookup mtKey).isSome then some obj else none

/-- The `key: value` line a field produces. -/
def lineOf (kv : Chars × JVal) : Chars := kv.1 ++ ':' :: ' ' :: encVal kv.2

/-- The canonical field order `encode` emits: a truthy `sequence_number`
first, then the remaining fields in insertion order. -/
def encodeFieldOrder (fields : List (Chars × JVal)) : List (Chars × JVal) :=
  (match fields.lookup seqKey with
   | some v => if jsTruthy v then [(seqKey, v)] else []
   | none => []) ++
    fields.filter (fun kv => kv.1 ≠ mtKey ∧ kv.1 ≠ seqKey)

lemma exists_concat {α : Type} {l : List α} (h : l ≠ []) :
    ∃ init a, l = init ++ [a] :=
  ⟨l.dropLast, l.getLast h, (List.dropLast_append_getLast h).symm⟩

instance : Nonempty (Chars × JVal) := ⟨⟨[], JVal.num 0⟩⟩

/-- Is the `sequence_number` field, when present, a scalar?  The header
line prints it with `String(value)`, so only for a non-container value
does that line agree with the `key: value` text the fields use. -/
def seqFieldScalar (fields : List (Chars × JVal)) : Bool :=
  match fields.lookup seqKey with
  | some (JVal.jsn _) => false
  | _ => true

lemma jsStringOf_eq_encVal {v : JVal} (h : ∀ j : Jsn, v ≠ JVal.jsn j) :
    jsStringOf v = encVal v := by
  cases v with
  | num n => rfl
  | str t => rfl
  | jsn j => exact absurd rfl (h j)

lemma encodeLines_eq (m : WireMsg) (hseq : seqFieldScalar m.fields = true) :
    encodeLines m =
      ((mtKey, JVal.str m.message_type) :: encodeFieldOrder m.fields).map lineOf := by
  simp only [encodeLines, encodeFieldOrder, List.map_cons, List.map_append]
  cases h : m.fields.lookup seqKey with
  | none => rfl
  | some v =>
      have hv : jsStringOf v = encVal v := by
        refine jsStringOf_eq_encVal ?_
        intro j hj
        rw [seqFieldScalar, h, hj] at hseq
        exact absurd hseq (by simp)
      by_cases ht : jsTruthy v = true
      · simp only [ht, if_true, hv]
        rfl
      · simp only [Bool.eq_false_iff.mpr ht, if_false]
        rfl

lemma trimSafe_head {l : Chars} (h : trimSafe l = true) :
    ∃ c t, l = c :: t ∧ wsChar c = false := by
  cases hc : l with
  | nil => rw [hc] at h; simp [trimSafe] at h
  | cons c t =>
      refine ⟨c, t, rfl, ?_⟩
      rw [hc] at h
      simp only [trimSafe, Bool.and_eq_true, Bool.not_eq_true'] at h
      exact h.1

lemma trimSafe_last {l : Chars} (h : trimSafe l = true) :
    ∃ init d, l = init ++ [d] ∧ wsChar d = false := by
  obtain ⟨c, t, hlc, -⟩ := trimSafe_head h
  have hlne : l ≠ [] := by rw [hlc]; simp
  refine ⟨l.dropLast, l.getLast hlne, (List.dropLast_append_getLast hlne).symm, ?_⟩
  rw [hlc] at h
  simp only [trimSafe, Bool.and_eq_true, Bool.not_eq_true'] at h
  have hsome := List.getLast?_eq_getLast (c :: t) (by simp)
  rw [hsome] at h
  have hval : l.getLast hlne = (c :: t).getLast (by simp) := by
    congr 1
  simp only at h
  rw [hval]
  simpa using h.2

lemma trimLeft_cons_append {c : Char} (t y : Chars) (hc : wsChar c = false) :
    trimLeft ((c :: t) ++ y) = (c :: t) ++ y := by
  simp [trimLeft, List.dropWhile, hc]

lemma encodeRaw_concat (ls : List Chars) (l : Chars) :
    encodeRaw (ls ++ [l]) = encodeRaw ls ++ (l ++ ['\n']) := by
  simp [encodeRaw]

lemma splitOnNl_encodeRaw_append (ls : List Chars) (l : Chars)
    (hls : ∀ x ∈ ls, '\n' ∉ x) (hl : '\n' ∉ l) :
    splitOnNl (encodeRaw ls ++ l) = ls ++ [l] := by
  induction ls with
  | nil =>
      have h0 : encodeRaw [] = ([] : Chars) := by simp [encodeRaw]
      rw [h0, List.nil_append]
      have := splitOnNl_append l [] hl
      simp only [List.append_nil, splitOnNl] at this
      simpa using this
  | cons l0 ls' ih =>
      have h1 : encodeRaw (l0 :: ls') ++ l = l0 ++ ('\n' :: (encodeRaw ls' ++ l)) := by
        simp [encodeRaw]
      rw [h1, splitOnNl_append l0 _ (hls l0 (by simp))]
      have h2 : splitOnNl ('\n' :: (encodeRaw ls' ++ l)) =
          [] :: splitOnNl (encodeRaw ls' ++ l) := by
        simp [splitOnNl]
      rw [h2, ih (fun x hx => hls x (by simp [hx]))]
      simp

/-- Splitting the accumulated-and-trimmed frame recovers the lines. -/
lemma trimChars_append_ws (Y : Chars) {c : Char} (hc : wsChar c = true) :
    trimChars (Y ++ [c]) = trimChars Y := by
  rw [trimChars, trimChars, trimLeft, trimLeft, List.dropWhile_append]
  by_cases he : (List.dropWhile wsChar Y).isEmpty
  · rw [if_pos he]
    have hY : List.dropWhile wsChar Y = [] := by simpa using he
    rw [hY]
    simp [List.dropWhile, hc]
  · rw [if_neg he]
    exact trimRight_append_ws _ hc

lemma trimLeft_encodeRaw_append (ls : List Chars) (l : Chars)
    (h : ∀ x ∈ ls, trimSafe x = true) (hl : trimSafe l = true) :
    trimLeft (encodeRaw ls ++ l) = encodeRaw ls ++ l := by
  cases hls0 : ls with
  | nil =>
      obtain ⟨c, t, hlc, hchead⟩ := trimSafe_head hl
      have h0 : encodeRaw [] = ([] : Chars) := by simp [encodeRaw]
      rw [h0, List.nil_append, hlc]
      simpa using trimLeft_cons_append t [] hchead
  | cons l0 ls' =>
      have hl0 := h l0 (by simp [hls0])
      obtain ⟨c, t, hl0c, hchead⟩ := trimSafe_head hl0
      have h1 : encodeRaw (l0 :: ls') ++ l =
          (c :: (t ++ ['\n'] ++ (encodeRaw ls' ++ l))) := by
        simp [encodeRaw, hl0c]
      rw [h1]
      simpa using trimLeft_cons_append (t ++ ['\n'] ++ (encodeRaw ls' ++ l)) [] hchead

lemma trim_fix (ls : List Chars) (l : Chars)
    (h : ∀ x ∈ ls, trimSafe x = true) (hl : trimSafe l = true) :
    trimChars (encodeRaw ls ++ l) = encodeRaw ls ++ l := by
  obtain ⟨li, d, hld, hdws⟩ := trimSafe_last hl
  rw [trimChars, trimLeft_encodeRaw_append ls l h hl]
  have h3 : encodeRaw ls ++ l = (encodeRaw ls ++ li) ++ [d] := by simp [hld]
  rw [h3, trimRight_append_of_not_ws _ hdws, ← h3]

lemma trim_encodeRaw_concat (ls : List Chars) (l : Chars)
    (h : ∀ x ∈ ls, trimSafe x = true) (hl : trimSafe l = true) :
    trimChars (encodeRaw (ls ++ [l])) = encodeRaw ls ++ l := by
  rw [encodeRaw_concat]
  have h1 : encodeRaw ls ++ (l ++ ['\n']) = (encodeRaw ls ++ l) ++ ['\n'] := by simp
  rw [h1, trimChars_append_ws _ (by simp [wsChar]), trim_fix ls l h hl]

/-- Splitting the accumulated-and-trimmed frame recovers the lines; the
extra `trim` applied by `decode` is absorbed. -/
lemma split_trim_trim_encodeRaw (lines : List Chars)
    (h : ∀ l ∈ lines, trimSafe l = true ∧ '\n' ∉ l) (hne : lines ≠ []) :
    splitOnNl (trimChars (trimChars (encodeRaw lines))) = lines := by
  obtain ⟨ls, l, rfl⟩ := exists_concat hne
  have hls : ∀ x ∈ ls, trimSafe x = true := fun x hx => (h x (by simp [hx])).1
  have hl : trimSafe l = true := (h l (by simp)).1
  rw [trim_encodeRaw_concat ls l hls hl, trim_fix ls l hls hl]
  exact splitOnNl_encodeRaw_append ls l (fun x hx => (h x (by simp [hx])).2)
    (h l (by simp)).2

lemma span_colon (k rest : Chars) (hk : ':' ∉ k) :
    (k ++ ':' :: rest).span (fun c => c ≠ ':') = (k, ':' :: rest) := by
  rw [List.span_eq_take_drop]
  induction k with
  | nil => simp [List.takeWhile, List.dropWhile]
  | cons c cs ih =>
      have hc : ¬ (c = ':') := fun hcc => hk (by simp [hcc])
      have hcs : ':' ∉ cs := fun hm => hk (by simp [hm])
      have hih := ih hcs
      simp only [List.cons_append, List.takeWhile_cons, List.dropWhile_cons,
        decide_eq_true_eq, decide_not] at hih ⊢
      have h1 := congrArg Prod.fst hih
      have h2 := congrArg Prod.snd hih
      simp only at h1 h2
      simp [hc, h1, h2]

lemma trimChars_cons_space (x : Chars) : trimChars (' ' :: x) = trimChars x := by
  simp [trimChars, trimLeft, List.dropWhile, wsChar]

lemma decodeLine_lineOf (k : Chars) (v : JVal) (hk : ':' ∉ k)
    (hkt : trimChars k = k) (hvt : trimChars (encVal v) = encVal v) :
    decodeLine (lineOf (k, v)) = some (k, decodeValue k (encVal v)) := by
  show decodeLine (k ++ ':' :: ' ' :: encVal v) = _
  rw [decodeLine, span_colon k (' ' :: encVal v) hk]
  simp only [trimChars_cons_space, hkt, hvt]

lemma decodeValue_not_bracket (k v : Chars) (hbr : headBracket v = false) :
    decodeValue k v =
      (if k ≠ mtKey then
        match jsNumberInt v with
        | some n => JVal.num n
        | none => JVal.str v
      else JVal.str v) := by
  rw [decodeValue, hbr]
  simp

lemma jsNumericStart_false_none {s : Chars} (h : jsNumericStart s = false) :
    jsNumberInt s = none := by
  cases s with
  | nil => simp [jsNumericStart] at h
  | cons c t =>
      simp only [jsNumericStart, Bool.or_eq_false_iff, decide_eq_false_iff_not,
        Bool.and_eq_false_iff] at h
      obtain ⟨⟨⟨⟨hplus, hminus⟩, hdot⟩, hI⟩, hdig⟩ := h
      have hdigit : digitVal c = none := by
        rw [digitVal]
        rcases hdig with hd | hd
        · rw [if_neg]
          intro hcon
          exact absurd (decide_eq_true hcon.1) (by simpa using hd)
        · rw [if_neg]
          intro hcon
          exact absurd (decide_eq_true hcon.2) (by simpa using hd)
      rw [jsNumberInt, if_neg hminus, if_neg hplus, jsAllDigitsInt, parseNat, hdigit]

lemma decodeValue_str (k s : Chars) (hk : ¬ (k = mtKey))
    (hnum : jsNumericStart s = false) (hbr : headBracket s = false) :
    decodeValue k s = JVal.str s := by
  rw [decodeValue_not_bracket k s hbr, if_pos hk, jsNumericStart_false_none hnum]

lemma decodeValue_num (k : Chars) (n : ℤ) (hk : ¬ (k = mtKey))
    (hparse : jsNumberInt (intToChars n) = some n)
    (hbr : headBracket (intToChars n) = false) :
    decodeValue k (intToChars n) = JVal.num n := by
  rw [decodeValue_not_bracket k _ hbr, if_pos hk, hparse]

lemma stringifyJsn_headBracket (j : Jsn) : headBracket (stringifyJsn j) = true := by
  cases j <;> rfl

lemma decodeValue_jsn (k : Chars) (j : Jsn)
    (hparse : jsonParse (stringifyJsn j) = some j) :
    decodeValue k (stringifyJsn j) = JVal.jsn j := by
  rw [decodeValue, stringifyJsn_headBracket, if_pos rfl, hparse]

lemma jsObjSet_not_mem (acc : List (Chars × JVal)) (k : Chars) (v : JVal)
    (h : k ∉ acc.map Prod.fst) : jsObjSet acc k v = acc ++ [(k, v)] := by
  induction acc with
  | nil => rfl
  | cons hd tl ih =>
      have hne : ¬ (hd.1 = k) := fun he => h (by simp [← he])
      have htl : k ∉ tl.map Prod.fst := fun hm => h (by simp [hm])
      simp [jsObjSet, hne, ih htl]

lemma foldl_jsObjSet (pairs : List (Chars × JVal)) :
    ∀ acc : List (Chars × JVal),
      (pairs.map Prod.fst).Nodup →
      (∀ x ∈ pairs.map Prod.fst, x ∉ acc.map Prod.fst) →
      pairs.foldl (fun a kv => jsObjSet a kv.1 kv.2) acc = acc ++ pairs := by
  induction pairs with
  | nil => intro acc _ _; simp
  | cons hd tl ih =>
      intro acc hnd hdisj
      simp only [List.foldl_cons]
      rw [jsObjSet_not_mem acc hd.1 hd.2 (hdisj hd.1 (by simp))]
      have hnd' : (tl.map Prod.fst).Nodup := by
        simpa using (List.nodup_cons.mp (by simpa using hnd)).2
      have hhd : hd.1 ∉ tl.map Prod.fst :=
        (List.nodup_cons.mp (by simpa using hnd)).1
      rw [ih (acc ++ [(hd.1, hd.2)]) hnd' ?_]
      · simp
      · intro x hx
        simp only [List.map_append, List.mem_append, List.map_cons, List.map_nil,
          List.mem_singleton, not_or]
        refine ⟨hdisj x (by simp [hx]), ?_⟩
        intro hxe
        exact hhd (hxe ▸ hx)

lemma mem_of_lookup_chars (l : List (Chars × JVal)) (k : Chars) (v : JVal)
    (h : l.lookup k = some v) : (k, v) ∈ l := by
  induction l with
  | nil => exact absurd h (by simp)
  | cons hd tl ih =>
      rw [List.lookup] at h
      by_cases hk : k = hd.1
      · rw [show (k == hd.1) = true from beq_iff_eq.mpr hk] at h
        simp only [Option.some.injEq] at h
        exact List.mem_cons.mpr (Or.inl (by rw [hk, ← h]))
      · rw [show (k == hd.1) = false from beq_eq_false_iff_ne.mpr hk] at h
        exact List.mem_cons_of_mem _ (ih h)

lemma mem_encodeFieldOrder {fields : List (Chars × JVal)} {kv : Chars × JVal}
    (h : kv ∈ encodeFieldOrder fields) : kv ∈ fields := by
  rw [encodeFieldOrder] at h
  rcases List.mem_append.mp h with h1 | h2
  · cases hlk : fields.lookup seqKey with
    | none => rw [hlk] at h1; simp at h1
    | some v =>
        rw [hlk] at h1
        simp only at h1
        by_cases ht : jsTruthy v = true
        · rw [if_pos ht] at h1
          simp only [List.mem_singleton] at h1
          rw [h1]
          exact mem_of_lookup_chars fields seqKey v hlk
        · rw [if_neg ht] at h1
          simp at h1
  · exact List.mem_of_mem_filter h2

/-- The well-formedness of one key: trim-invariant, free of `:` and
newline, and not the (separately written) `message_type` key. -/
def keySafe (k : Chars) : Prop :=
  trimSafe k = true ∧ ':' ∉ k ∧ '\n' ∉ k ∧ k ≠ mtKey

/-- A field value whose `key: value` text survives the wire: its encoded
text is trim-invariant and newline-free, and it decodes back — a number
prints and re-parses to itself and does not look like JSON; a string is
not numeric-looking (so both this model's `Number` fragment and real JS
yield `NaN`) and not JSON-opening; a container re-parses from its
stringification. -/
def valSafe : JVal → Prop
  | JVal.num n => jsNumberInt (intToChars n) = some n ∧
      trimSafe (intToChars n) = true ∧ '\n' ∉ intToChars n ∧
      headBracket (intToChars n) = false
  | JVal.str s => trimSafe s = true ∧ '\n' ∉ s ∧ jsNumericStart s = false ∧
      headBracket s = false
  | JVal.jsn j => jsonParse (stringifyJsn j) = some j ∧
      trimSafe (stringifyJsn j) = true ∧ '\n' ∉ stringifyJsn j

lemma valSafe_encVal {v : JVal} (h : valSafe v) :
    trimSafe (encVal v) = true ∧ '\n' ∉ encVal v := by
  cases v with
  | num n => exact ⟨h.2.1, h.2.2.1⟩
  | str s => exact ⟨h.1, h.2.1⟩
  | jsn j => exact ⟨h.2.1, h.2.2⟩

lemma valSafe_decodeValue {k : Chars} {v : JVal} (hk : ¬ (k = mtKey))
    (h : valSafe v) : decodeValue k (encVal v) = v := by
  cases v with
  | num n => exact decodeValue_num k n hk h.1 h.2.2.2
  | str s => exact decodeValue_str k s hk h.2.2.1 h.2.2.2
  | jsn j => exact decodeValue_jsn k j h.1

lemma trimSafe_of_ends {l : Chars} {c d : Char} {t init : Chars}
    (hhead : l = c :: t) (hc : wsChar c = false)
    (hlast : l = init ++ [d]) (hd : wsChar d = false) :
    trimSafe l = true := by
  subst hhead
  rw [trimSafe]
  have hgl : (c :: t).getLast? = some d := by
    rw [hlast, List.getLast?_concat]
  rw [hgl]
  simp [hc, hd]

lemma lineOf_safe {k : Chars} {v : JVal} (hks : trimSafe k = true)
    (hkn : '\n' ∉ k) (hvs : trimSafe (encVal v) = true)
    (hvn : '\n' ∉ encVal v) :
    trimSafe (lineOf (k, v)) = true ∧ '\n' ∉ lineOf (k, v) := by
  obtain ⟨c, t, hkc, hchead⟩ := trimSafe_head hks
  obtain ⟨init, d, hvd, hdws⟩ := trimSafe_last hvs
  constructor
  · have hh : lineOf (k, v) = c :: (t ++ ':' :: ' ' :: encVal v) := by
      rw [lineOf]
      simp [hkc]
    have hl2 : lineOf (k, v) = (k ++ ':' :: ' ' :: init) ++ [d] := by
      rw [lineOf]
      simp [hvd]
    exact trimSafe_of_ends hh hchead hl2 hdws
  · rw [lineOf]
    intro hmem
    rcases List.mem_append.mp hmem with h1 | h2
    · exact hkn h1
    · rcases h2 with _ | ⟨_, h3⟩
      rcases h3 with _ | ⟨_, h4⟩
      exact hvn h4

lemma decodeValue_mtKey (s : Chars) (hbr : headBracket s = false) :
    decodeValue mtKey s = JVal.str s := by
  rw [decodeValue_not_bracket _ _ hbr, if_neg (by simp)]

lemma decodeStep_of_decodeLine {line : Chars} {k : Chars} {v : JVal}
    (h : decodeLine line = some (k, v)) (acc : List (Chars × JVal)) :
    decodeStep acc line = jsObjSet acc k v := by
  rw [decodeStep, h]

lemma foldl_decodeStep (pairs : List (Chars × JVal)) :
    ∀ acc : List (Chars × JVal),
      (∀ kv ∈ pairs, decodeLine (lineOf kv) = some (kv.1, kv.2)) →
      (pairs.map lineOf).foldl decodeStep acc =
        pairs.foldl (fun a kv => jsObjSet a kv.1 kv.2) acc := by
  induction pairs with
  | nil => intro acc _; rfl
  | cons hd tl ih =>
      intro acc hdec
      simp only [List.map_cons, List.foldl_cons]
      rw [decodeStep_of_decodeLine (hdec hd (by simp))]
      exact ih _ (fun kv hkv => hdec kv (by simp [hkv]))

lemma seqKey_not_mem_filter_keys (fields : List (Chars × JVal)) :
    seqKey ∉
      (fields.filter (fun kv => kv.1 ≠ mtKey ∧ kv.1 ≠ seqKey)).map Prod.fst := by
  intro hmem
  obtain ⟨kv, hkvmem, hkv1⟩ := List.mem_map.mp hmem
  have hp := List.of_mem_filter hkvmem
  simp only [decide_eq_true_eq] at hp
  exact hp.2 hkv1

lemma encodeFieldOrder_keys_nodup (fields : List (Chars × JVal))
    (hnd : (fields.map Prod.fst).Nodup) :
    ((encodeFieldOrder fields).map Prod.fst).Nodup := by
  have hfil :
      ((fields.filter (fun kv => kv.1 ≠ mtKey ∧ kv.1 ≠ seqKey)).map Prod.fst).Nodup :=
    List.Nodup.sublist (List.Sublist.map Prod.fst (List.filter_sublist fields)) hnd
  rw [encodeFieldOrder, List.map_append]
  cases h : fields.lookup seqKey with
  | none => simpa using hfil
  | some v =>
      by_cases ht : jsTruthy v = true
      · simp only [ht, if_true, List.map_cons, List.map_nil, List.singleton_append]
        rw [List.nodup_cons]
        exact ⟨seqKey_not_mem_filter_keys fields, hfil⟩
      · simp only [Bool.eq_false_iff.mpr ht, if_false]
        simpa using hfil

instance (k : Chars) : Decidable (keySafe k) :=
  inferInstanceAs (Decidable (trimSafe k = true ∧ ':' ∉ k ∧ '\n' ∉ k ∧ k ≠ mtKey))

instance : (v : JVal) → Decidable (valSafe v)
  | JVal.num n =>
      inferInstanceAs (Decidable (jsNumberInt (intToChars n) = some n ∧
        trimSafe (intToChars n) = true ∧ '\n' ∉ intToChars n ∧
        headBracket (intToChars n) = false))
  | JVal.str s =>
      inferInstanceAs (Decidable (trimSafe s = true ∧ '\n' ∉ s ∧
        jsNumericStart s = false ∧ headBracket s = false))
  | JVal.jsn j =>
      inferInstanceAs (Decidable (jsonParse (stringifyJsn j) = some j ∧
        trimSafe (stringifyJsn j) = true ∧ '\n' ∉ stringifyJsn j))

/-- The wire round trip: for a message whose `message_type` and fields are
well-formed, `decode (encode m)` rebuilds exactly the object `encode`
serialized — `message_type` first, then a truthy `sequence_number`, then
the remaining fields in insertion order. -/
theorem decode_encode_eq (m : WireMsg)
    (hmts : trimSafe m.message_type = true)
    (hmtn : '\n' ∉ m.message_type)
    (hmtb : headBracket m.message_type = false)
    (hf : ∀ kv ∈ m.fields, keySafe kv.1 ∧ valSafe kv.2)
    (hnd : (m.fields.map Prod.fst).Nodup)
    (hseq : seqFieldScalar m.fields = true) :
    decode (encode m) =
      some ((mtKey, JVal.str m.message_type) :: encodeFieldOrder m.fields) := by
  have hpairsafe : ∀ kv ∈ (mtKey, JVal.str m.message_type) :: encodeFieldOrder m.fields,
      trimSafe kv.1 = true ∧ ':' ∉ kv.1 ∧ '\n' ∉ kv.1 ∧
      trimSafe (encVal kv.2) = true ∧ '\n' ∉ encVal kv.2 := by
    intro kv hkv
    rcases List.mem_cons.mp hkv with h0 | h1
    · subst h0
      exact ⟨show trimSafe mtKey = true by decide, show ':' ∉ mtKey by decide,
        show '\n' ∉ mtKey by decide, hmts, hmtn⟩
    · obtain ⟨⟨hks, hkc, hkn, -⟩, hv⟩ := hf kv (mem_encodeFieldOrder h1)
      obtain ⟨hvs, hvn⟩ := valSafe_encVal hv
      exact ⟨hks, hkc, hkn, hvs, hvn⟩
  have hlinesafe : ∀ l ∈ ((mtKey, JVal.str m.message_type) ::
      encodeFieldOrder m.fields).map lineOf, trimSafe l = true ∧ '\n' ∉ l := by
    intro l hl
    obtain ⟨kv, hkv, rfl⟩ := List.mem_map.mp hl
    obtain ⟨hks, -, hkn, hvs, hvn⟩ := hpairsafe kv hkv
    exact lineOf_safe hks hkn hvs hvn
  have hsplit : splitOnNl (trimChars (encode m)) =
      ((mtKey, JVal.str m.message_type) :: encodeFieldOrder m.fields).map lineOf := by
    rw [encode, encodeLines_eq m hseq]
    exact split_trim_trim_encodeRaw _ hlinesafe (by simp)
  have hdecl : ∀ kv ∈ (mtKey, JVal.str m.message_type) :: encodeFieldOrder m.fields,
      decodeLine (lineOf kv) = some (kv.1, kv.2) := by
    intro kv hkv
    rcases List.mem_cons.mp hkv with h0 | h1
    · subst h0
      rw [decodeLine_lineOf mtKey (JVal.str m.message_type) (by decide) (by decide)
        ((trimSafe_spec hmts).1),
        decodeValue_mtKey (encVal (JVal.str m.message_type)) hmtb]
      rfl
    · obtain ⟨⟨hks, hkc, hkn, hkm⟩, hv⟩ := hf kv (mem_encodeFieldOrder h1)
      obtain ⟨hvs, hvn⟩ := valSafe_encVal hv
      have h2 := decodeLine_lineOf kv.1 kv.2 hkc ((trimSafe_spec hks).1)
        ((trimSafe_spec hvs).1)
      rw [valSafe_decodeValue hkm hv] at h2
      exact h2
  have hkeysnd : (((mtKey, JVal.str m.message_type) ::
      encodeFieldOrder m.fields).map Prod.fst).Nodup := by
    simp only [List.map_cons]
    rw [List.nodup_cons]
    refine ⟨?_, encodeFieldOrder_keys_nodup m.fields hnd⟩
    intro hmem
    obtain ⟨kv, hkvm, hkv1⟩ := List.mem_map.mp hmem
    exact (hf kv (mem_encodeFieldOrder hkvm)).1.2.2.2 hkv1
  have hfold : (((mtKey, JVal.str m.message_type) ::
      encodeFieldOrder m.fields).map lineOf).foldl decodeStep [] =
      (mtKey, JVal.str m.message_type) :: encodeFieldOrder m.fields := by
    rw [foldl_decodeStep _ [] hdecl]
    exact (foldl_jsObjSet _ [] hkeysnd (by simp)).trans (List.nil_append _)
  simp only [decode]
  rw [hsplit, hfold]
  have hlook : ((((mtKey, JVal.str m.message_type) ::
      encodeFieldOrder m.fields)).lookup mtKey).isSome = true := by
    simp [List.lookup]
  rw [if_pos hlook]

/-- A message whose only field is the *string* `"42"`. -/
def cxMsgC8bad : WireMsg :=
  { message_type := "PING".data, fields := [("note".data, JVal.str "42".data)] }

/-- **C8** (counterexample).  The claim says `decode(encode(M)) = M` up to
numeric widening with *string fields decoding as the same strings*.  The
decoder of `lib/protocol/serializer.js` however applies `Number(value)` to
every non-`message_type` value and keeps the result whenever it is not
`NaN`: the message with the single string field `note: "42"` comes back
with the *number* 42 in place of the string `"42"`, so the round trip is
not the identity on string fields. -/
theorem claim_C8_counterexample_numeric_string :
    decode (encode cxMsgC8bad) =
      some [(mtKey, JVal.str "PING".data), ("note".data, JVal.num 42)] ∧
    cxMsgC8bad.fields = [("note".data, JVal.str "42".data)] ∧
    JVal.num 42 ≠ JVal.str "42".data := by
  refine ⟨by decide, by decide, by decide⟩

/-- **C8** (amended).  For a message whose `message_type` is trim-stable,
newline-free and not JSON-opening, whose field keys are well formed
(`keySafe`: trim-stable, free of `:`/newline, distinct from
`message_type`) and pairwise distinct, and whose field values survive the
wire (`valSafe`: integers print and re-parse to themselves; strings are
trim-stable, newline-free, not numeric-looking and not JSON-opening;
nested containers re-parse from their `JSON.stringify`),
`decode (encode M)` rebuilds exactly the serialized object:
`message_type` first (as a string), then a truthy `sequence_number`, then
the remaining fields in insertion order — integer fields as the same
integers, string fields as the same strings, containers as equal
structures.  Without the `valSafe` string guard the round trip fails
(numeric-looking strings widen to numbers), a falsy `sequence_number`
field is dropped by `encode`, and a container-valued `sequence_number`
is excluded (`seqFieldScalar`) because the header line prints it with
`String(value)` — `""`/`[object Object]` — not `JSON.stringify`, so it
cannot survive the wire. -/
theorem claim_C8_amended_roundtrip (m : WireMsg)
    (hmts : trimSafe m.message_type = true)
    (hmtn : '\n' ∉ m.message_type)
    (hmtb : headBracket m.message_type = false)
    (hf : ∀ kv ∈ m.fields, keySafe kv.1 ∧ valSafe kv.2)
    (hnd : (m.fields.map Prod.fst).Nodup)
    (hseq : seqFieldScalar m.fields = true) :
    decode (encode m) =
      some ((mtKey, JVal.str m.message_type) :: encodeFieldOrder m.fields) :=
  decode_encode_eq m hmts hmtn hmtb hf hnd hseq

/-- A representative well-formed message: a truthy sequence number, an
integer field, a string field and a nested JSON object field. -/
def cxMsgC8 : WireMsg :=
  { message_type := "CALCULATION_REPORT".data,
    fields := [ (seqKey, JVal.num 7),
                ("damage_dealt".data, JVal.num 42),
                ("attacker".data, JVal.str "HostMon".data),
                ("stat_boosts".data,
                  JVal.jsn (Jsn.obj [("attack".data, JScalar.num 2)])) ] }

theorem claim_C8_amended_roundtrip_witness :
    decode (encode cxMsgC8) =
      some ((mtKey, JVal.str cxMsgC8.message_type) ::
        encodeFieldOrder cxMsgC8.fields) :=
  claim_C8_amended_roundtrip cxMsgC8 (by decide) (by decide) (by decide)
    (by decide) (by decide) (by decide)

/-! ## ACK construction and emission — `lib/protocol/messages.js`,
`protocol/message-creators.js`, `lib/network/udp_socket.js`,
`network/reliability.js` -/

/-- `createAckMessage(ackNumber)` of `lib/protocol/messages.js` (the
variant the claim cites): a non-positive ACK number throws (`none`);
otherwise the object is
`{message_type: 'ACK', sequence_number: 0, ack_number}`. -/
def createAckMessage (ackNumber : ℕ) : Option WireMsg :=
  if ackNumber = 0 then none
  else some { message_type := "ACK".data,
              fields := [(seqKey, JVal.num 0), (ackKey, JVal.num ackNumber)] }

/-- `createAckMessage(ackNumber)` of `protocol/message-creators.js` (the
variant `network/reliability.js` imports): same guard, but the object is
`{message_type: 'ACK', ack_number}` with no `sequence_number` property. -/
def createAckMessageMC (ackNumber : ℕ) : Option WireMsg :=
  if ackNumber = 0 then none
  else some { message_type := "ACK".data,
              fields := [(ackKey, JVal.num ackNumber)] }

/-- `sendPacket(messageObject, …)` of `lib/network/udp_socket.js`: the
outbound counter is incremented and injected into the message object
(`messageObject[SEQUENCE_NUMBER] = seqNum`) before encoding — for *every*
message, ACKs included.  Returns the new counter, the mutated object and
the emitted frame. -/
def sendPacket (counter : ℕ) (m : WireMsg) : ℕ × WireMsg × Chars :=
  let seqNum := counter + 1
  let m2 : WireMsg := { m with fields := jsObjSet m.fields seqKey (JVal.num seqNum) }
  (seqNum, m2, encode m2)

/-- `sendAck(seqNumToAck, ip, port)` of `network/reliability.js`: the ACK
is built by `createAckMessage` (message-creators variant) and handed to
the *raw* sender — not `sendReliable` — so the retransmission buffer is
untouched.  Returns the buffer and the object handed to the raw sender. -/
def sendAck {M : Type} (buf : List (ℕ × RelEntry M)) (seqNumToAck : ℕ) :
    List (ℕ × RelEntry M) × Option WireMsg :=
  (buf, createAckMessageMC seqNumToAck)

/-- The reply behaviour of the `socket.on('message')` handler of
`lib/network/udp_socket.js`: an inbound ACK goes to `handleAck` and no
reply is sent; any other packet is answered with
`sendPacket(createAckMessage(sequence_number))`. -/
def inboundReply (counter : ℕ) (header_type : Chars) (header_seq : ℕ) :
    ℕ × Option Chars :=
  if header_type = "ACK".data then (counter, none)
  else
    match createAckMessage header_seq with
    | some ack => ((sendPacket counter ack).1, some (sendPacket counter ack).2.2)
    | none => (counter, none)

lemma jsObjSet_lookup_self (l : List (Chars × JVal)) (k : Chars) (v : JVal) :
    (jsObjSet l k v).lookup k = some v := by
  induction l with
  | nil => simp [jsObjSet, List.lookup]
  | cons hd tl ih =>
      obtain ⟨k', v'⟩ := hd
      rw [jsObjSet]
      by_cases h : k' = k
      · rw [if_pos h]
        simp [List.lookup]
      · rw [if_neg h]
        rw [List.lookup, show (k == k') = false from
          beq_eq_false_iff_ne.mpr (fun he => h he.symm)]
        exact ih

/-- The ACK of sequence number 5, as `lib/protocol/messages.js` builds
it. -/
def cxAckMsg : WireMsg :=
  { message_type := "ACK".data,
    fields := [(seqKey, JVal.num 0), (ackKey, JVal.num 5)] }

/-- **C7** (counterexample).  The claim says every ACK frame carries *no*
`sequence_number`.  But `createAckMessage` of `lib/protocol/messages.js`
(the cited source) writes `sequence_number: 0` into the ACK object, and
`sendPacket` of `lib/network/udp_socket.js` — the function through which
the inbound handler emits every ACK — overwrites it with the incremented
outbound counter before encoding: the frame for an ACK of packet 5 sent
with counter 0 decodes with `sequence_number = 1` (and `ack_number = 5`). -/
theorem claim_C7_counterexample_ack_carries_sequence_number :
    createAckMessage 5 = some cxAckMsg ∧
    cxAckMsg.fields.lookup seqKey = some (JVal.num 0) ∧
    decode ((sendPacket 0 cxAckMsg).2.2) =
      some [(mtKey, JVal.str "ACK".data), (seqKey, JVal.num 1),
            (ackKey, JVal.num 5)] := by
  refine ⟨by decide, by decide, by decide⟩

/-- **C7** (amended).  What does hold: the `message-creators.js` ACK (the
one `reliability.js` sends) carries an `ack_number` and no
`sequence_number` property; the `lib/protocol/messages.js` ACK carries
`sequence_number: 0`; every message object emitted through `sendPacket` —
ACKs included — leaves with `sequence_number` set to the incremented
outbound counter; `sendAck` bypasses `sendReliable`, so ACKs are never
entered into the retransmission buffer; and an inbound ACK is handed to
`handleAck` without any reply, so ACKs are never themselves
acknowledged. -/
theorem claim_C7_amended_ack_sequence_number {M : Type}
    (buf : List (ℕ × RelEntry M)) (n counter : ℕ) (m : WireMsg) (hn : n ≠ 0) :
    (∃ ackMC, createAckMessageMC n = some ackMC ∧
       ackMC.fields.lookup seqKey = none ∧
       ackMC.fields.lookup ackKey = some (JVal.num n)) ∧
    (∃ ackLib, createAckMessage n = some ackLib ∧
       ackLib.fields.lookup seqKey = some (JVal.num 0) ∧
       ackLib.fields.lookup ackKey = some (JVal.num n)) ∧
    ((sendPacket counter m).2.1).fields.lookup seqKey =
      some (JVal.num (counter + 1)) ∧
    (sendAck buf n).1 = buf ∧
    inboundReply counter "ACK".data n = (counter, none) := by
  refine ⟨?_, ?_, ?_, rfl, ?_⟩
  · simp only [createAckMessageMC, if_neg hn]
    refine ⟨_, rfl, ?_, ?_⟩
    · simp [List.lookup, show (seqKey == ackKey) = false from by decide]
    · simp [List.lookup]
  · simp only [createAckMessage, if_neg hn]
    refine ⟨_, rfl, ?_, ?_⟩
    · simp [List.lookup]
    · simp [List.lookup, show (ackKey == seqKey) = false from by decide]
  · exact jsObjSet_lookup_self m.fields seqKey (JVal.num (counter + 1))
  · rw [inboundReply, if_pos rfl]

theorem claim_C7_amended_ack_sequence_number_witness :
    (∃ ackMC, createAckMessageMC 5 = some ackMC ∧
       ackMC.fields.lookup seqKey = none ∧
       ackMC.fields.lookup ackKey = some (JVal.num 5)) ∧
    (∃ ackLib, createAckMessage 5 = some ackLib ∧
       ackLib.fields.lookup seqKey = some (JVal.num 0) ∧
       ackLib.fields.lookup ackKey = some (JVal.num 5)) ∧
    ((sendPacket 0 cxAckMsg).2.1).fields.lookup seqKey =
      some (JVal.num (0 + 1)) ∧
    (sendAck ([] : List (ℕ × RelEntry String)) 5).1 = [] ∧
    inboundReply 0 "ACK".data 5 = (0, none) :=
  claim_C7_amended_ack_sequence_number ([] : List (ℕ × RelEntry String))
    5 0 cxAckMsg (by decide)

/-! ## Host handshake and seed synchronization — `network/p2p-server.js`,
`protocol/message-creators.js`, `game/state-machine.js` -/

/-- The characters of the key `seed` (`BATTLE_FIELDS.SEED`). -/
def seedKey : Chars := "seed".data

/-- `generateBattleSeed()` of `network/p2p-server.js`:
`Math.floor(Math.random() * 1000000000)`, as a function of the
`Math.random()` draw `r ∈ [0, 1)`. -/
def generateBattleSeed (r : ℚ) : ℕ := (Int.floor (r * 1000000000)).toNat

/-- `createHandshakeResponse(sequenceNumber, seed, ackNumber)` of
`protocol/message-creators.js`: throws (`none`) unless `seed > 0` and
`ackNumber > 0`, else builds the response object. -/
def createHandshakeResponse (sequenceNumber seed ackNumber : ℕ) : Option WireMsg :=
  if seed = 0 then none
  else if ackNumber = 0 then none
  else some { message_type := "HANDSHAKE_RESPONSE".data,
              fields := [(seqKey, JVal.num sequenceNumber),
                         (seedKey, JVal.num seed),
                         (ackKey, JVal.num ackNumber)] }

/-- The host-side state the handshake touches: the reliability layer's
`sequenceCounter`, the `GameState` seed and the RNG accumulator. -/
structure HostState where
  seqCounter : ℕ
  seed : ℕ
  rng : ℕ
deriving DecidableEq

/-- `handleHandshakeRequest(message)` of `network/p2p-server.js`: a fresh
seed is drawn (`generateBattleSeed`), `getNextSequenceNumber()` is taken
(post-increment), the response `createHandshakeResponse(respSeq, seed,
receivedSeq)` is sent via `sendReliable`, and the host then overwrites
its `GameState` seed and re-runs `RNG.initializeRNG(seed)`.  There is no
guard against a seed having already been set.  A `createHandshakeResponse`
throw (`none`) aborts the handler before the state updates. -/
def handleHandshakeRequest (st : HostState) (receivedSeq : ℕ) (r : ℚ) :
    HostState × Option WireMsg :=
  let seed := generateBattleSeed r
  let respSeq := st.seqCounter
  let st1 : HostState := { st with seqCounter := st.seqCounter + 1 }
  match createHandshakeResponse respSeq seed receivedSeq with
  | none => (st1, none)
  | some resp => ({ st1 with seed := seed, rng := initializeRNG seed }, some resp)

/-- The joiner-side state `handleHandshakeResponse` touches. -/
structure JoinerState where
  conn : ConnState
  seed : ℕ
  rng : ℕ
deriving DecidableEq

/-- `handleHandshakeResponse(message)` of `game/state-machine.js`
(JOINER side): outside `INIT_SENT` the message is ignored; otherwise the
`seed` field is read, state and RNG are re-initialized from it and the
connection transitions to `SETUP_EXCHANGING`.  (A missing or non-numeric
seed makes `RNG.initializeRNG` throw before the transition.) -/
def handleHandshakeResponse (st : JoinerState) (msg : WireMsg) : JoinerState :=
  if st.conn ≠ ConnState.INIT_SENT then st
  else
    match msg.fields.lookup seedKey with
    | some (JVal.num s) =>
        { conn := ConnState.SETUP_EXCHANGING, seed := s.toNat,
          rng := initializeRNG s.toNat }
    | _ => st

lemma generateBattleSeed_lt (r : ℚ) (h1 : r < 1) :
    generateBattleSeed r < 1000000000 := by
  rw [generateBattleSeed]
  have h2 : (r * 1000000000 : ℚ) < 1000000000 := by nlinarith
  have h3 : Int.floor (r * 1000000000) < (1000000000 : ℤ) :=
    Int.floor_lt.mpr (by exact_mod_cast h2)
  omega

lemma gbs_half : generateBattleSeed (1/2) = 500000000 := by
  rw [generateBattleSeed]
  norm_num
  decide

lemma gbs_threefifth : generateBattleSeed (3/5) = 600000000 := by
  rw [generateBattleSeed]
  norm_num
  decide

lemma handleHandshakeRequest_eq (st : HostState) (nn s : ℕ) (r : ℚ)
    (hs : generateBattleSeed r = s) (hseed : s ≠ 0) (hN : nn ≠ 0) :
    handleHandshakeRequest st nn r =
      ({ seqCounter := st.seqCounter + 1, seed := s, rng := initializeRNG s },
        some { message_type := "HANDSHAKE_RESPONSE".data,
               fields := [(seqKey, JVal.num st.seqCounter),
                          (seedKey, JVal.num s), (ackKey, JVal.num nn)] }) := by
  have hresp : createHandshakeResponse st.seqCounter s nn =
      some { message_type := "HANDSHAKE_RESPONSE".data,
             fields := [(seqKey, JVal.num st.seqCounter),
                        (seedKey, JVal.num s), (ackKey, JVal.num nn)] } := by
    rw [createHandshakeResponse, if_neg hseed, if_neg hN]
  rw [handleHandshakeRequest]
  simp only [hs, hresp]

/-- A host that has not yet seeded (counter 1, no seed, RNG state 0). -/
def cxHost0 : HostState := { seqCounter := 1, seed := 0, rng := 0 }

/-- A joiner awaiting the handshake response. -/
def cxJoiner : JoinerState := { conn := ConnState.INIT_SENT, seed := 0, rng := 0 }

/-- **C9** (counterexample).  The claim (and invariant I5) says the seed
is set *exactly once* per session and both peers end with identical PRNG
streams.  `handleHandshakeRequest` has no duplicate guard: a first
request (draw 1/2) seeds host and joiner with 500000000, but a second
HANDSHAKE_REQUEST — e.g. a retransmitted one — makes the host draw a
fresh seed (600000000 for draw 3/5) and re-run `initializeRNG`, while the
joiner, already past `INIT_SENT`, keeps 500000000: the two RNG states now
differ, so the streams diverge. -/
theorem claim_C9_counterexample_host_reseeds_per_request :
    (handleHandshakeRequest cxHost0 10 (1/2)).1.rng = initializeRNG 500000000 ∧
    ((handleHandshakeRequest cxHost0 10 (1/2)).2).map
        (fun m => m.fields.lookup seedKey) = some (some (JVal.num 500000000)) ∧
    handleHandshakeResponse cxJoiner
        { message_type := "HANDSHAKE_RESPONSE".data,
          fields := [(seqKey, JVal.num 1), (seedKey, JVal.num 500000000),
                     (ackKey, JVal.num 10)] } =
      { conn := ConnState.SETUP_EXCHANGING, seed := 500000000,
        rng := initializeRNG 500000000 } ∧
    (handleHandshakeRequest
        (handleHandshakeRequest cxHost0 10 (1/2)).1 10 (3/5)).1.rng =
      initializeRNG 600000000 ∧
    initializeRNG 600000000 ≠ initializeRNG 500000000 := by
  have h1 := handleHandshakeRequest_eq cxHost0 10 500000000 (1/2)
    gbs_half (by decide) (by decide)
  have h2 := handleHandshakeRequest_eq (handleHandshakeRequest cxHost0 10 (1/2)).1
    10 600000000 (3/5) gbs_threefifth (by decide) (by decide)
  refine ⟨by rw [h1], ?_, by decide, by rw [h2], by decide⟩
  rw [h1]
  decide

/-- **C9** (amended).  What one handshake round does do: on a
HANDSHAKE_REQUEST with sequence number `nn`, a `Math.random()` draw `r`
and a non-zero resulting seed, the host sends a HANDSHAKE_RESPONSE whose
`seed` field is `generateBattleSeed r` and whose `ack_number` is `nn`,
stores that seed and initializes its PRNG from it; the seed is
`⌊r·10⁹⌋ < 10⁹` (not a uniform 32-bit value); and a joiner in `INIT_SENT`
that processes this response initializes its PRNG to exactly the host's
accumulator state, so both Mulberry32 streams coincide.  The claim's
once-per-session part does not hold (see the counterexample): each
further request re-seeds the host. -/
theorem claim_C9_amended_handshake_seed_sync (st : HostState) (nn s : ℕ) (r : ℚ)
    (h1 : r < 1) (hs : generateBattleSeed r = s)
    (hseed : s ≠ 0) (hN : nn ≠ 0) :
    (handleHandshakeRequest st nn r).2 =
      some { message_type := "HANDSHAKE_RESPONSE".data,
             fields := [(seqKey, JVal.num st.seqCounter),
                        (seedKey, JVal.num s),
                        (ackKey, JVal.num nn)] } ∧
    (handleHandshakeRequest st nn r).1.rng = initializeRNG s ∧
    (handleHandshakeRequest st nn r).1.seed = s ∧
    s < 1000000000 ∧
    ∀ j : JoinerState, j.conn = ConnState.INIT_SENT →
      handleHandshakeResponse j
          { message_type := "HANDSHAKE_RESPONSE".data,
            fields := [(seqKey, JVal.num st.seqCounter),
                       (seedKey, JVal.num s),
                       (ackKey, JVal.num nn)] } =
        { conn := ConnState.SETUP_EXCHANGING, seed := s,
          rng := (handleHandshakeRequest st nn r).1.rng } := by
  have hreq := handleHandshakeRequest_eq st nn s r hs hseed hN
  refine ⟨by rw [hreq], by rw [hreq], by rw [hreq],
    hs ▸ generateBattleSeed_lt r h1, ?_⟩
  intro j hj
  rw [handleHandshakeResponse, if_neg (by simp [hj])]
  rw [show List.lookup seedKey
      [(seqKey, JVal.num st.seqCounter), (seedKey, JVal.num s),
        (ackKey, JVal.num nn)] = some (JVal.num s) by
    rw [List.lookup, show (seedKey == seqKey) = false from by decide,
      List.lookup, show (seedKey == seedKey) = true from by decide]]
  rw [hreq]
  simp

theorem claim_C9_amended_handshake_seed_sync_witness :
    (handleHandshakeRequest cxHost0 10 (1/2)).2 =
      some { message_type := "HANDSHAKE_RESPONSE".data,
             fields := [(seqKey, JVal.num cxHost0.seqCounter),
                        (seedKey, JVal.num 500000000),
                        (ackKey, JVal.num 10)] } ∧
    (handleHandshakeRequest cxHost0 10 (1/2)).1.rng = initializeRNG 500000000 ∧
    (handleHandshakeRequest cxHost0 10 (1/2)).1.seed = 500000000 ∧
    (500000000 : ℕ) < 1000000000 ∧
    handleHandshakeResponse cxJoiner
        { message_type := "HANDSHAKE_RESPONSE".data,
          fields := [(seqKey, JVal.num cxHost0.seqCounter),
                     (seedKey, JVal.num 500000000),
                     (ackKey, JVal.num 10)] } =
      { conn := ConnState.SETUP_EXCHANGING, seed := 500000000,
        rng := (handleHandshakeRequest cxHost0 10 (1/2)).1.rng } := by
  have h := claim_C9_amended_handshake_seed_sync cxHost0 10 500000000 (1/2)
    one_half_lt_one gbs_half (by decide) (by decide)
  exact ⟨h.1, h.2.1, h.2.2.1, h.2.2.2.1, h.2.2.2.2 cxJoiner rfl⟩

end PokeProtocol
